import Mathlib

/-!
# Actors: a shallow embedding of `actors.go`

The Go program keeps one `map[string]chan Message` (the registry of mailboxes)
and one `ShareState` (three counters behind a mutex); every `Actor` holds
pointers to both.  Here the two pointees form a `World` that is passed
explicitly through every operation, and an `Actor` is its `id`.

Modelling decisions, all visible in the definitions below:

* a buffered channel `make(chan Message, n)` is a `Chan`: its capacity and the
  FIFO list of buffered messages (head = oldest);
* `select { case ch <- v: A  default: B }` takes `A` exactly when the buffer
  holds fewer than `cap` messages, and `select { case v := <-ch: A  default: B }`
  takes `A` exactly when the buffer is non-empty (sequential execution: no
  goroutine is parked on the other end); a nil channel, which is what indexing
  the map with a missing key yields, is never ready, so `default` runs;
* the map is an association list with first-match lookup, and a Go map has no
  duplicate key, which theorems that need it assume as `(keys channels).Nodup`;
  every key is mapped to a made channel, since `new` is the only writer of the
  map; Go's unspecified `range` order over the map is an explicit argument
  `order` of `send`, a permutation of the keys;
* `make(chan Message, size)` does not return for every size: it panics at run
  time on a negative size and on a size whose buffer exceeds the allocation
  limit of the runtime (from `2^43 - 3` messages on, on a 64-bit platform), and
  below that limit the memory of the machine decides.  `new` returns
  `Outcome.panicked` in these cases; the largest size that the machine grants
  is the parameter `chanLimit` of the model;
* the counters are Go `int`s.  The operations compute them as unbounded
  integers, which is what `+= 1` does as long as a counter stays below
  `2^63 - 1`; the definitions whose names end in `64` are the same operations
  with the 64-bit `+= 1` that wraps from `2^63 - 1` to `-2^63`, and
  `run64_wrap64` relates the two;
* `fmt.Printf` output is not modelled;
* the `for { select { ... } }` loop of `receiveMany` runs on fuel: one unit per
  pass through the loop body, `none` when the fuel is used up;
* a run of the program is a list of calls (`Op`), executed by `runOps`; the
  sender, the target and the iteration order of a call are left unconstrained
  there, so that the states reached by the program are among those reached by
  `runOps`.
-/

namespace Actors

/-- The Go struct `ShareState` without its mutex. -/
structure ShareState where
  nActors : Int
  nMsgsProcessed : Int
  nMsgsSent : Int
deriving DecidableEq, Repr

/-- The method `incrementMsgsSent`, the sum taken as an unbounded integer: that is the Go
`+= 1` as long as the counter is below `2^63 - 1`.  `incrementMsgsSent64` is the method
with the 64-bit sum. -/
def ShareState.incrementMsgsSent (s : ShareState) : ShareState :=
  { s with nMsgsSent := s.nMsgsSent + 1 }

/-- The method `incrementMsgsProcessed`, the sum taken as an unbounded integer: that is
the Go `+= 1` as long as the counter is below `2^63 - 1`.  `incrementMsgsProcessed64` is
the method with the 64-bit sum. -/
def ShareState.incrementMsgsProcessed (s : ShareState) : ShareState :=
  { s with nMsgsProcessed := s.nMsgsProcessed + 1 }

/-- The Go struct `Message`; `msg` is an `interface{}` that is either nil or a string. -/
structure Message where
  msg : Option String
  sender : String
deriving DecidableEq, Repr

/-- The zero value `Message{}`. -/
def Message.zero : Message := { msg := none, sender := "" }

/-- A buffered `chan Message`: capacity and buffered messages, oldest first. -/
structure Chan where
  cap : Nat
  buf : List Message
deriving DecidableEq, Repr

/-- The send case of a `select` with a `default`: `some` of the new channel state when
the send case runs, `none` when `default` runs. -/
def Chan.trySend (c : Chan) (v : Message) : Option Chan :=
  if c.buf.length < c.cap then some { c with buf := c.buf ++ [v] } else none

/-- The receive case of a `select` with a `default`: the received message and the new
channel state, or `none` when `default` runs. -/
def Chan.tryRecv (c : Chan) : Option (Message × Chan) :=
  match c.buf with
  | [] => none
  | v :: rest => some (v, { c with buf := rest })

/-- The Go type `map[string]chan Message`. -/
abbrev Channels := List (String × Chan)

/-- The keys of the map. -/
def keys (channels : Channels) : List String := channels.map Prod.fst

/-- The index expression `channels[k]`: `none` is the nil channel of a missing key. -/
def chanAt : Channels → String → Option Chan
  | [], _ => none
  | (k', c) :: rest, k => if k' = k then some c else chanAt rest k

/-- The state of the channel stored under `k` becomes `c`; for a missing key this is the
map assignment `channels[k] = c`, which adds the key. -/
def putChan : Channels → String → Chan → Channels
  | [], k, c => [(k, c)]
  | (k', c') :: rest, k, c =>
    if k' = k then (k, c) :: rest else (k', c') :: putChan rest k c

/-- The pointees of `Actor.channels` and `Actor.shareData`. -/
structure World where
  channels : Channels
  shareData : ShareState
deriving DecidableEq, Repr

/-- The Go struct `Actor`; its two pointer fields refer to the `World`. -/
structure Actor where
  id : String
deriving DecidableEq, Repr

/-- What a call does: it returns a value and leaves a world, or it panics. -/
inductive Outcome (α : Type) where
  | returned (val : α) (w : World)
  | panicked (why : String)
deriving DecidableEq, Repr

/-- From this size on, `make(chan Message, size)` panics on every 64-bit platform: a
`Message` takes 32 bytes, and the buffer would exceed the `2^48` bytes that the runtime
can allocate. -/
def chanSizeBound : Int := 2 ^ 43 - 3

/-- The function `new`: the returned pair is `(*Actor, error)`, `none` standing for nil.
`chanLimit` is the largest size for which `make(chan Message, size)` returns on the
machine at hand; `make` does not return either for a negative size or from
`chanSizeBound` on. -/
def new (chanLimit : Nat) (id : String) (channels : Channels) (channelCap : Int)
    (sharedData : ShareState) : Outcome (Option Actor × Option String) :=
  if id = "all" then
    .returned (none, some "Actor id 'all' is reserved") ⟨channels, sharedData⟩
  else if (chanAt channels id).isSome then
    .returned (none, some "Actor id already exists") ⟨channels, sharedData⟩
  else if channelCap < 0 ∨ chanSizeBound ≤ channelCap ∨ (chanLimit : Int) < channelCap then
    .panicked "makechan: size out of range"
  else
    .returned (some ⟨id⟩, none)
      ⟨putChan channels id ⟨channelCap.toNat, []⟩,
       { sharedData with nActors := sharedData.nActors + 1 }⟩

/-- The non-blocking send of `v` on `channels[k]`: the new map when the send case runs. -/
def trySendTo (channels : Channels) (k : String) (v : Message) : Option Channels :=
  match chanAt channels k with
  | none => none
  | some c =>
    match c.trySend v with
    | none => none
    | some c' => some (putChan channels k c')

/-- The loop `for k, _ := range channels` of the broadcast branch of `send`, over the keys
still to visit; the result is the world left and the error returned from inside the loop
(`none`: the loop ran to its end). -/
def sendAll (a : Actor) (m : String) : List String → World → World × Option String
  | [], w => (w, none)
  | k :: ks, w =>
    if k ≠ a.id then
      match trySendTo w.channels k ⟨some m, a.id⟩ with
      | some channels' =>
        sendAll a m ks ⟨channels', w.shareData.incrementMsgsSent⟩
      | none => (w, some "Channel is full")
    else sendAll a m ks w

/-- The method `send`; `target` is the parameter `to`, `order` the order in which `range`
visits the keys of the map.  The test `if _, ok := channels[to]; !ok` only builds an
error value and drops it, so it does not show here: a missing key is met by the `select`,
whose send on the nil channel is never ready. -/
def send (a : Actor) (m : String) (target : String) (order : List String) (w : World) :
    World × Option String :=
  if w.channels.length ≤ 1 then
    (w, some "No other actors to send message to")
  else if target = "all" then
    sendAll a m order w
  else
    match trySendTo w.channels target ⟨some m, a.id⟩ with
    | some channels' => (⟨channels', w.shareData.incrementMsgsSent⟩, none)
    | none => (w, some "Channel is full")

/-- The non-blocking receive on `channels[k]`: the message and the new map when the
receive case runs. -/
def tryRecvFrom (channels : Channels) (k : String) : Option (Message × Channels) :=
  match chanAt channels k with
  | none => none
  | some c =>
    match c.tryRecv with
    | none => none
    | some (v, c') => some (v, putChan channels k c')

/-- The method `receiveOnce`. -/
def receiveOnce (a : Actor) (w : World) : World × Message × Option String :=
  match tryRecvFrom w.channels a.id with
  | some (v, channels') => (⟨channels', w.shareData.incrementMsgsProcessed⟩, v, none)
  | none => (w, Message.zero, none)

/-- The loop of `receiveMany`, with the messages accumulated so far. -/
def receiveLoop (a : Actor) : Nat → World → List Message →
    Option (World × List Message × Option String)
  | 0, _, _ => none
  | fuel + 1, w, messages =>
    match tryRecvFrom w.channels a.id with
    | some (v, channels') =>
      receiveLoop a fuel ⟨channels', w.shareData.incrementMsgsProcessed⟩ (messages ++ [v])
    | none => some (w, messages, none)

/-- The method `receiveMany`; the result lists the messages the returned pointers point to. -/
def receiveMany (fuel : Nat) (a : Actor) (w : World) :
    Option (World × List Message × Option String) :=
  receiveLoop a fuel w []

/-- The function `start`: every listed actor drains its mailbox, in list order. -/
def start (fuel : Nat) : List Actor → World → Option World
  | [], w => some w
  | a :: rest, w =>
    match receiveMany fuel a w with
    | some (w', _, _) => start fuel rest w'
    | none => none

/-- An empty map and zeroed counters, as `main` sets them up. -/
def World.init : World := ⟨[], ⟨0, 0, 0⟩⟩

/-- A run of calls `new(id, &channels, cap, &sharedData)`, one per listed pair, on the
same map and counters; the values returned are dropped, as in `main`. -/
def registerAll (chanLimit : Nat) : List (String × Int) → World → Option World
  | [], w => some w
  | (id, channelCap) :: rest, w =>
    match new chanLimit id w.channels channelCap w.shareData with
    | .returned _ w' => registerAll chanLimit rest w'
    | .panicked _ => none

/-- A run of point-to-point calls `a.send(m, target)`, one per listed pair `(a, m)`; the
result is the world left and the errors returned, in call order. -/
def sendEach (target : String) (order : List String) :
    List (Actor × String) → World → World × List (Option String)
  | [], w => (w, [])
  | (a, m) :: rest, w =>
    let r := send a m target order w
    let rs := sendEach target order rest r.1
    (rs.1, r.2 :: rs.2)

/-- The number of messages pending in all the mailboxes of the map. -/
def totalPending (channels : Channels) : Nat :=
  (channels.map (fun e => e.2.buf.length)).sum

/-- The number of messages pending in the mailbox stored under `k`, `len(channels[k])`;
it is 0 for a missing key. -/
def pendingAt (channels : Channels) (k : String) : Nat :=
  match chanAt channels k with
  | some c => c.buf.length
  | none => 0

/-- One call into the program: `new`, a method of an actor, or `start`, with its
arguments (for `send` also the order in which `range` visits the map, for the draining
calls the fuel of the loop). -/
inductive Op where
  | new (id : String) (channelCap : Int)
  | send (a : Actor) (m : String) (target : String) (order : List String)
  | receiveOnce (a : Actor)
  | receiveMany (fuel : Nat) (a : Actor)
  | start (fuel : Nat) (actors : List Actor)
deriving DecidableEq, Repr

/-- The world a call leaves, whether it returned an error or not; `none` when the call
does not return (`new` panics) or the fuel of a loop is used up.  `chanLimit` is the
parameter of `new`. -/
def Op.run (chanLimit : Nat) : Op → World → Option World
  | .new id channelCap, w =>
    match Actors.new chanLimit id w.channels channelCap w.shareData with
    | .returned _ w' => some w'
    | .panicked _ => none
  | .send a m target order, w => some (Actors.send a m target order w).1
  | .receiveOnce a, w => some (Actors.receiveOnce a w).1
  | .receiveMany fuel a, w =>
    match Actors.receiveMany fuel a w with
    | some (w', _, _) => some w'
    | none => none
  | .start fuel actors, w => Actors.start fuel actors w

/-- A sequence of calls, one after the other, on the same map and counters. -/
def runOps (chanLimit : Nat) : List Op → World → Option World
  | [], w => some w
  | op :: rest, w =>
    match op.run chanLimit w with
    | some w' => runOps chanLimit rest w'
    | none => none

/-- The three elementary changes of the world that the calls are made of: a fresh key
gets an empty mailbox and `nActors` is incremented (in `new`); a message is appended to a
mailbox with room and `nMsgsSent` is incremented (a send case of a `select`); the oldest
message of a mailbox is removed and `nMsgsProcessed` is incremented (a receive case).
`capOk` restricts the capacities that registrations may use. -/
inductive Prim (capOk : Int → Prop) : World → World → Prop where
  | register (w : World) (id : String) (channelCap : Int) :
      chanAt w.channels id = none → 0 ≤ channelCap → capOk channelCap →
      Prim capOk w
        ⟨putChan w.channels id ⟨channelCap.toNat, []⟩,
         { w.shareData with nActors := w.shareData.nActors + 1 }⟩
  | enqueue (w : World) (k : String) (c : Chan) (v : Message) :
      chanAt w.channels k = some c → c.buf.length < c.cap →
      Prim capOk w
        ⟨putChan w.channels k ⟨c.cap, c.buf ++ [v]⟩, w.shareData.incrementMsgsSent⟩
  | dequeue (w : World) (k : String) (n : Nat) (v : Message) (rest : List Message) :
      chanAt w.channels k = some ⟨n, v :: rest⟩ →
      Prim capOk w
        ⟨putChan w.channels k ⟨n, rest⟩, w.shareData.incrementMsgsProcessed⟩

/-- The number of messages pending in the mailboxes stored under the listed keys, each
distinct key counted once. -/
def pendingOf (channels : Channels) (ids : List String) : Nat :=
  ((ids.dedup).map (pendingAt channels)).sum

/-- Go's `int` on a 64-bit platform holds the integers from `-2^63` to `2^63 - 1`;
`wrap64 x` is the integer of that range congruent to `x` modulo `2^64`, which is what the
machine keeps of a sum. -/
def wrap64 (x : Int) : Int := (x + 2 ^ 63) % 2 ^ 64 - 2 ^ 63

/-- The statement `x += 1` on a Go `int` of 64 bits. -/
def incr64 (x : Int) : Int := wrap64 (x + 1)

/-- The method `incrementMsgsSent` with the 64-bit `+= 1`. -/
def ShareState.incrementMsgsSent64 (s : ShareState) : ShareState :=
  { s with nMsgsSent := incr64 s.nMsgsSent }

/-- The method `incrementMsgsProcessed` with the 64-bit `+= 1`. -/
def ShareState.incrementMsgsProcessed64 (s : ShareState) : ShareState :=
  { s with nMsgsProcessed := incr64 s.nMsgsProcessed }

/-- The function `new` with the 64-bit `+= 1` on `nActors`. -/
def new64 (chanLimit : Nat) (id : String) (channels : Channels) (channelCap : Int)
    (sharedData : ShareState) : Outcome (Option Actor × Option String) :=
  if id = "all" then
    .returned (none, some "Actor id 'all' is reserved") ⟨channels, sharedData⟩
  else if (chanAt channels id).isSome then
    .returned (none, some "Actor id already exists") ⟨channels, sharedData⟩
  else if channelCap < 0 ∨ chanSizeBound ≤ channelCap ∨ (chanLimit : Int) < channelCap then
    .panicked "makechan: size out of range"
  else
    .returned (some ⟨id⟩, none)
      ⟨putChan channels id ⟨channelCap.toNat, []⟩,
       { sharedData with nActors := incr64 sharedData.nActors }⟩

/-- The broadcast loop of `send` with the 64-bit counters. -/
def sendAll64 (a : Actor) (m : String) : List String → World → World × Option String
  | [], w => (w, none)
  | k :: ks, w =>
    if k ≠ a.id then
      match trySendTo w.channels k ⟨some m, a.id⟩ with
      | some channels' =>
        sendAll64 a m ks ⟨channels', w.shareData.incrementMsgsSent64⟩
      | none => (w, some "Channel is full")
    else sendAll64 a m ks w

/-- The method `send` with the 64-bit counters. -/
def send64 (a : Actor) (m : String) (target : String) (order : List String) (w : World) :
    World × Option String :=
  if w.channels.length ≤ 1 then
    (w, some "No other actors to send message to")
  else if target = "all" then
    sendAll64 a m order w
  else
    match trySendTo w.channels target ⟨some m, a.id⟩ with
    | some channels' => (⟨channels', w.shareData.incrementMsgsSent64⟩, none)
    | none => (w, some "Channel is full")

/-- The method `receiveOnce` with the 64-bit counters. -/
def receiveOnce64 (a : Actor) (w : World) : World × Message × Option String :=
  match tryRecvFrom w.channels a.id with
  | some (v, channels') => (⟨channels', w.shareData.incrementMsgsProcessed64⟩, v, none)
  | none => (w, Message.zero, none)

/-- The loop of `receiveMany` with the 64-bit counters. -/
def receiveLoop64 (a : Actor) : Nat → World → List Message →
    Option (World × List Message × Option String)
  | 0, _, _ => none
  | fuel + 1, w, messages =>
    match tryRecvFrom w.channels a.id with
    | some (v, channels') =>
      receiveLoop64 a fuel ⟨channels', w.shareData.incrementMsgsProcessed64⟩ (messages ++ [v])
    | none => some (w, messages, none)

/-- The method `receiveMany` with the 64-bit counters. -/
def receiveMany64 (fuel : Nat) (a : Actor) (w : World) :
    Option (World × List Message × Option String) :=
  receiveLoop64 a fuel w []

/-- The function `start` with the 64-bit counters. -/
def start64 (fuel : Nat) : List Actor → World → Option World
  | [], w => some w
  | a :: rest, w =>
    match receiveMany64 fuel a w with
    | some (w', _, _) => start64 fuel rest w'
    | none => none

/-- The world a call leaves, with the 64-bit counters. -/
def Op.run64 (chanLimit : Nat) : Op → World → Option World
  | .new id channelCap, w =>
    match Actors.new64 chanLimit id w.channels channelCap w.shareData with
    | .returned _ w' => some w'
    | .panicked _ => none
  | .send a m target order, w => some (Actors.send64 a m target order w).1
  | .receiveOnce a, w => some (Actors.receiveOnce64 a w).1
  | .receiveMany fuel a, w =>
    match Actors.receiveMany64 fuel a w with
    | some (w', _, _) => some w'
    | none => none
  | .start fuel actors, w => Actors.start64 fuel actors w

/-- A sequence of calls with the 64-bit counters. -/
def runOps64 (chanLimit : Nat) : List Op → World → Option World
  | [], w => some w
  | op :: rest, w =>
    match op.run64 chanLimit w with
    | some w' => runOps64 chanLimit rest w'
    | none => none

/-- The counters reduced to 64 bits. -/
def ShareState.to64 (s : ShareState) : ShareState :=
  ⟨wrap64 s.nActors, wrap64 s.nMsgsProcessed, wrap64 s.nMsgsSent⟩

/-- The world with its counters reduced to 64 bits. -/
def World.to64 (w : World) : World := ⟨w.channels, w.shareData.to64⟩

/-! ## The map: lookup and update -/

theorem chanAt_putChan_self (channels : Channels) (k : String) (c : Chan) :
    chanAt (putChan channels k c) k = some c := by
  induction channels with
  | nil => simp [putChan, chanAt]
  | cons e rest ih =>
    obtain ⟨k', c'⟩ := e
    by_cases h : k' = k
    · simp [putChan, chanAt, h]
    · simp [putChan, chanAt, h, ih]

theorem chanAt_putChan_of_ne (channels : Channels) (k j : String) (c : Chan) (h : j ≠ k) :
    chanAt (putChan channels k c) j = chanAt channels j := by
  induction channels with
  | nil => simp [putChan, chanAt, Ne.symm h]
  | cons e rest ih =>
    obtain ⟨k', c'⟩ := e
    by_cases hk : k' = k
    · subst hk
      simp [putChan, chanAt, Ne.symm h]
    · by_cases hj : k' = j
      · subst hj
        simp [putChan, chanAt, hk]
      · simp [putChan, chanAt, hk, hj, ih]

theorem putChan_of_none (channels : Channels) (k : String) (c : Chan)
    (h : chanAt channels k = none) : putChan channels k c = channels ++ [(k, c)] := by
  induction channels with
  | nil => simp [putChan]
  | cons e rest ih =>
    obtain ⟨k', c'⟩ := e
    by_cases hk : k' = k
    · simp [chanAt, hk] at h
    · simp only [chanAt, hk, if_false] at h
      simp [putChan, hk, ih h]

theorem keys_putChan_of_some (channels : Channels) (k : String) (c c0 : Chan)
    (h : chanAt channels k = some c0) : keys (putChan channels k c) = keys channels := by
  induction channels with
  | nil => simp [chanAt] at h
  | cons e rest ih =>
    obtain ⟨k', c'⟩ := e
    by_cases hk : k' = k
    · simp [putChan, keys, hk]
    · simp only [chanAt, hk, if_false] at h
      have := ih h
      simp only [keys] at this
      simp [putChan, keys, hk, this]

theorem chanAt_eq_none_iff (channels : Channels) (k : String) :
    chanAt channels k = none ↔ k ∉ keys channels := by
  induction channels with
  | nil => simp [chanAt, keys]
  | cons e rest ih =>
    obtain ⟨k', c'⟩ := e
    by_cases hk : k' = k
    · simp [chanAt, keys, hk]
    · simp only [keys] at ih
      simp [chanAt, keys, hk, ih, Ne.symm hk]

theorem length_keys (channels : Channels) : (keys channels).length = channels.length := by
  simp [keys]

theorem length_putChan_of_some (channels : Channels) (k : String) (c c0 : Chan)
    (h : chanAt channels k = some c0) : (putChan channels k c).length = channels.length := by
  rw [← length_keys, keys_putChan_of_some channels k c c0 h, length_keys]

/-! ## Registration -/

theorem new_of_fresh (chanLimit : Nat) (id : String) (channels : Channels)
    (channelCap : Int) (sharedData : ShareState) (hall : id ≠ "all")
    (hfresh : chanAt channels id = none) (hcap : 0 ≤ channelCap)
    (hbound : channelCap < chanSizeBound) (hlimit : channelCap ≤ chanLimit) :
    new chanLimit id channels channelCap sharedData =
      .returned (some ⟨id⟩, none)
        ⟨channels ++ [(id, ⟨channelCap.toNat, []⟩)],
         { sharedData with nActors := sharedData.nActors + 1 }⟩ := by
  have hgranted : ¬ (channelCap < 0 ∨ chanSizeBound ≤ channelCap ∨
      (chanLimit : Int) < channelCap) := by
    rintro (h | h | h) <;> omega
  simp only [new, hall, hfresh, Option.isSome_none, Bool.false_eq_true, if_false, hgranted,
    putChan_of_none _ _ _ hfresh]

theorem new_of_refused (chanLimit : Nat) (id : String) (channels : Channels)
    (channelCap : Int) (sharedData : ShareState) (hall : id ≠ "all")
    (hfresh : chanAt channels id = none)
    (hrefused : channelCap < 0 ∨ chanSizeBound ≤ channelCap ∨ (chanLimit : Int) < channelCap) :
    new chanLimit id channels channelCap sharedData =
      .panicked "makechan: size out of range" := by
  simp only [new, hall, hfresh, Option.isSome_none, Bool.false_eq_true, if_false, hrefused,
    if_true]

theorem registerAll_of_fresh (chanLimit : Nat) (regs : List (String × Int)) :
    ∀ w : World, (keys w.channels ++ regs.map Prod.fst).Nodup →
      (∀ r ∈ regs, r.1 ≠ "all") →
      (∀ r ∈ regs, 0 ≤ r.2 ∧ r.2 < chanSizeBound ∧ r.2 ≤ chanLimit) →
      registerAll chanLimit regs w =
        some ⟨w.channels ++ regs.map (fun r => (r.1, ⟨r.2.toNat, []⟩)),
              { w.shareData with nActors := w.shareData.nActors + regs.length }⟩ := by
  induction regs with
  | nil => intro w _ _ _; simp [registerAll]
  | cons r rest ih =>
    intro w hnd hall hcap
    obtain ⟨id, channelCap⟩ := r
    have hfresh : chanAt w.channels id = none := by
      rw [chanAt_eq_none_iff]
      intro hmem
      have := List.nodup_append.mp hnd
      exact this.2.2 hmem (by simp)
    have hc := hcap (id, channelCap) (by simp)
    have h1 := new_of_fresh chanLimit id w.channels channelCap w.shareData
      (hall (id, channelCap) (by simp)) hfresh hc.1 hc.2.1 hc.2.2
    simp only [registerAll, h1]
    rw [ih]
    · simp [add_assoc, add_comm (1 : Int)]
    · simpa [keys, List.append_assoc] using hnd
    · intro r hr; exact hall r (by simp [hr])
    · intro r hr; exact hcap r (by simp [hr])

/-- A completed run of registrations of distinct fresh ids: what the world is then. -/
theorem registerAll_of_distinct (chanLimit : Nat) (regs : List (String × Int)) :
    ∀ w : World, (keys w.channels ++ regs.map Prod.fst).Nodup →
      (∀ r ∈ regs, r.1 ≠ "all") →
      ∀ w' : World, registerAll chanLimit regs w = some w' →
        w'.shareData.nActors = w.shareData.nActors + regs.length ∧
        w'.channels.length = w.channels.length + regs.length ∧
        keys w'.channels = keys w.channels ++ regs.map Prod.fst ∧
        w'.shareData.nMsgsSent = w.shareData.nMsgsSent ∧
        w'.shareData.nMsgsProcessed = w.shareData.nMsgsProcessed := by
  induction regs with
  | nil =>
    intro w _ _ w' hw'
    simp only [registerAll, Option.some.injEq] at hw'
    subst hw'
    exact ⟨by simp, by simp, by simp, rfl, rfl⟩
  | cons r rest ih =>
    intro w hnd hall w' hw'
    obtain ⟨id, channelCap⟩ := r
    have hfresh : chanAt w.channels id = none := by
      rw [chanAt_eq_none_iff]
      intro hmem
      exact (List.nodup_append.mp hnd).2.2 hmem (by simp)
    have hne : id ≠ "all" := hall (id, channelCap) (by simp)
    by_cases hrefused : channelCap < 0 ∨ chanSizeBound ≤ channelCap ∨
        (chanLimit : Int) < channelCap
    · have h1 := new_of_refused chanLimit id w.channels channelCap w.shareData hne hfresh
        hrefused
      simp [registerAll, h1] at hw'
    · have hc : 0 ≤ channelCap ∧ channelCap < chanSizeBound ∧ channelCap ≤ chanLimit := by
        refine ⟨?_, ?_, ?_⟩ <;> by_contra h <;> apply hrefused <;> omega
      have h1 := new_of_fresh chanLimit id w.channels channelCap w.shareData hne hfresh
        hc.1 hc.2.1 hc.2.2
      simp only [registerAll, h1] at hw'
      obtain ⟨hA, hL, hK, hS, hP⟩ := ih _
        (by simpa [keys, List.append_assoc] using hnd)
        (fun r hr => hall r (by simp [hr])) w' hw'
      refine ⟨?_, ?_, ?_, hS, hP⟩
      · rw [hA]; simp; ring
      · rw [hL]; simp; ring
      · rw [hK]; simp [keys]

/-! ## Sending -/

theorem trySendTo_of_room (channels : Channels) (k : String) (v : Message) (c : Chan)
    (hc : chanAt channels k = some c) (hroom : c.buf.length < c.cap) :
    trySendTo channels k v = some (putChan channels k ⟨c.cap, c.buf ++ [v]⟩) := by
  simp [trySendTo, hc, Chan.trySend, hroom]

theorem trySendTo_of_full (channels : Channels) (k : String) (v : Message) (c : Chan)
    (hc : chanAt channels k = some c) (hfull : c.cap ≤ c.buf.length) :
    trySendTo channels k v = none := by
  simp [trySendTo, hc, Chan.trySend, not_lt.mpr hfull]

theorem trySendTo_eq_some (channels channels' : Channels) (k : String) (v : Message)
    (h : trySendTo channels k v = some channels') :
    ∃ c, chanAt channels k = some c ∧ c.buf.length < c.cap ∧
      channels' = putChan channels k ⟨c.cap, c.buf ++ [v]⟩ := by
  unfold trySendTo at h
  cases hc : chanAt channels k with
  | none => simp [hc] at h
  | some c =>
    by_cases hroom : c.buf.length < c.cap
    · refine ⟨c, rfl, hroom, ?_⟩
      simp [hc, Chan.trySend, hroom] at h
      exact h.symm
    · simp [hc, Chan.trySend, hroom] at h

theorem trySendTo_eq_none_iff (channels : Channels) (k : String) (v : Message) :
    trySendTo channels k v = none ↔
      ∀ c, chanAt channels k = some c → c.cap ≤ c.buf.length := by
  unfold trySendTo
  cases hc : chanAt channels k with
  | none => simp
  | some c =>
    by_cases hroom : c.buf.length < c.cap
    · simp [Chan.trySend, hroom]
    · simp [Chan.trySend, hroom, not_lt.mp hroom]

/-- What the broadcast loop does over a duplicate-free list of keys: it delivers to the
non-sender keys of a prefix `visited` and either reaches the end or stops at a key whose
non-blocking send falls to `default`. -/
theorem sendAll_spec (a : Actor) (m : String) (order : List String) :
    ∀ w : World, order.Nodup →
      ∃ visited rest, order = visited ++ rest ∧
        (sendAll a m order w).1.shareData =
          { w.shareData with
            nMsgsSent := w.shareData.nMsgsSent + ((visited.filter (· ≠ a.id)).length : Nat) } ∧
        (∀ k ∈ visited, k ≠ a.id → ∃ c, chanAt w.channels k = some c ∧
          c.buf.length < c.cap ∧
          chanAt (sendAll a m order w).1.channels k =
            some ⟨c.cap, c.buf ++ [⟨some m, a.id⟩]⟩) ∧
        (∀ k, ¬ (k ∈ visited ∧ k ≠ a.id) →
          chanAt (sendAll a m order w).1.channels k = chanAt w.channels k) ∧
        keys (sendAll a m order w).1.channels = keys w.channels ∧
        (((sendAll a m order w).2 = none ∧ rest = []) ∨
         ((sendAll a m order w).2 = some "Channel is full" ∧
           ∃ k rest', rest = k :: rest' ∧ k ≠ a.id ∧
             ∀ c, chanAt w.channels k = some c → c.cap ≤ c.buf.length)) := by
  induction order with
  | nil =>
    intro w _
    exact ⟨[], [], rfl, by simp [sendAll], by simp, by simp [sendAll], by simp [sendAll],
      Or.inl ⟨by simp [sendAll], rfl⟩⟩
  | cons k ks ih =>
    intro w hnd
    have hk : k ∉ ks := (List.nodup_cons.mp hnd).1
    have hks : ks.Nodup := (List.nodup_cons.mp hnd).2
    by_cases hself : k = a.id
    · obtain ⟨visited, rest, hsplit, hsd, hgain, hsame, hkeys, hend⟩ := ih w hks
      have hstep : sendAll a m (k :: ks) w = sendAll a m ks w := by
        simp [sendAll, hself]
      rw [hstep]
      refine ⟨k :: visited, rest, by simp [hsplit], ?_, ?_, ?_, hkeys, hend⟩
      · simpa [hself] using hsd
      · intro j hj hne
        rcases List.mem_cons.mp hj with rfl | hj
        · exact absurd hself hne
        · exact hgain j hj hne
      · intro j hj
        apply hsame
        rintro ⟨hmem, hne⟩
        exact hj ⟨List.mem_cons_of_mem _ hmem, hne⟩
    · cases hsend : trySendTo w.channels k ⟨some m, a.id⟩ with
      | none =>
        have hstep : sendAll a m (k :: ks) w = (w, some "Channel is full") := by
          simp [sendAll, hself, hsend]
        rw [hstep]
        refine ⟨[], k :: ks, rfl, by simp, by simp, by simp, rfl,
          Or.inr ⟨rfl, k, ks, rfl, hself, ?_⟩⟩
        exact (trySendTo_eq_none_iff _ _ _).mp hsend
      | some channels' =>
        obtain ⟨c, hc, hroom, hch⟩ := trySendTo_eq_some _ _ _ _ hsend
        have hstep : sendAll a m (k :: ks) w =
            sendAll a m ks ⟨channels', w.shareData.incrementMsgsSent⟩ := by
          simp [sendAll, hself, hsend]
        rw [hstep]
        obtain ⟨visited, rest, hsplit, hsd, hgain, hsame, hkeys, hend⟩ :=
          ih ⟨channels', w.shareData.incrementMsgsSent⟩ hks
        have hkv : k ∉ visited := fun hmem => hk (by rw [hsplit]; simp [hmem])
        have hother : ∀ j, j ≠ k → chanAt channels' j = chanAt w.channels j := by
          intro j hj
          rw [hch]
          exact chanAt_putChan_of_ne _ _ _ _ hj
        refine ⟨k :: visited, rest, by simp [hsplit], ?_, ?_, ?_, ?_, ?_⟩
        · rw [hsd]
          simp [ShareState.incrementMsgsSent, hself, add_assoc, add_comm (1 : Int)]
        · intro j hj hne
          rcases List.mem_cons.mp hj with rfl | hj
          · refine ⟨c, hc, hroom, ?_⟩
            rw [hsame j (fun h => hkv h.1)]
            simp only [hch]
            exact chanAt_putChan_self _ _ _
          · have hjk : j ≠ k := fun h => hkv (h ▸ hj)
            obtain ⟨c', hc', hroom', hres⟩ := hgain j hj hne
            exact ⟨c', by rw [← hother j hjk]; exact hc', hroom', hres⟩
        · intro j hj
          have hjk : j ≠ k := fun h => hj ⟨by simp [h], h ▸ hself⟩
          rw [hsame j (fun h => hj ⟨List.mem_cons_of_mem _ h.1, h.2⟩)]
          exact hother j hjk
        · rw [hkeys]
          simp only [hch]
          exact keys_putChan_of_some _ _ _ c hc
        · rcases hend with hend | ⟨herr, k', rest', hrest, hne, hfull⟩
          · exact Or.inl hend
          · refine Or.inr ⟨herr, k', rest', hrest, hne, ?_⟩
            have hk' : k' ≠ k := by
              intro h
              apply hk
              rw [hsplit, hrest, h]
              simp
            intro c' hc'
            apply hfull
            simpa [hother k' hk'] using hc'

theorem chanAt_some_mem (channels : Channels) (k : String) (c : Chan)
    (h : chanAt channels k = some c) : (k, c) ∈ channels := by
  induction channels with
  | nil => simp [chanAt] at h
  | cons e rest ih =>
    obtain ⟨k', c'⟩ := e
    by_cases hk : k' = k
    · simp [chanAt, hk] at h
      simp [hk, h]
    · simp only [chanAt, hk, if_false] at h
      simp [ih h]

theorem exists_chanAt_of_mem_keys (channels : Channels) (k : String)
    (h : k ∈ keys channels) : ∃ c, chanAt channels k = some c := by
  cases hc : chanAt channels k with
  | none => exact absurd h ((chanAt_eq_none_iff channels k).mp hc)
  | some c => exact ⟨c, rfl⟩

theorem putChan_putChan (channels : Channels) (k : String) (c c' : Chan) :
    putChan (putChan channels k c) k c' = putChan channels k c' := by
  induction channels with
  | nil => simp [putChan]
  | cons e rest ih =>
    obtain ⟨k', c0⟩ := e
    by_cases hk : k' = k
    · simp [putChan, hk]
    · simp [putChan, hk, ih]

theorem putChan_same (channels : Channels) (k : String) (c : Chan)
    (h : chanAt channels k = some c) : putChan channels k c = channels := by
  induction channels with
  | nil => simp [chanAt] at h
  | cons e rest ih =>
    obtain ⟨k', c'⟩ := e
    by_cases hk : k' = k
    · simp [chanAt, hk] at h
      simp [putChan, hk, h]
    · simp only [chanAt, hk, if_false] at h
      simp [putChan, hk, ih h]

theorem length_filter_ne_of_nodup (l : List String) (x : String) (hnd : l.Nodup)
    (hx : x ∈ l) : (l.filter (· ≠ x)).length + 1 = l.length := by
  induction l with
  | nil => simp at hx
  | cons y ys ih =>
    have hy : y ∉ ys := (List.nodup_cons.mp hnd).1
    by_cases hyx : y = x
    · subst hyx
      have hall : ys.filter (· ≠ y) = ys := by
        rw [List.filter_eq_self]
        intro z hz
        simpa using fun h : z = y => hy (h ▸ hz)
      rw [List.filter_cons]
      simp only [ne_eq, not_true_eq_false, decide_False, Bool.false_eq_true, if_false]
      rw [hall]
      simp
    · have hx' : x ∈ ys := by
        rcases List.mem_cons.mp hx with h | h
        · exact absurd h.symm hyx
        · exact h
      have := ih (List.nodup_cons.mp hnd).2 hx'
      rw [List.filter_cons]
      simp only [ne_eq, hyx, not_false_eq_true, decide_True, if_true, List.length_cons]
      simp only [ne_eq] at this
      omega

theorem send_of_room (a : Actor) (m target : String) (order : List String) (w : World)
    (c : Chan) (hlen : 2 ≤ w.channels.length) (hto : target ≠ "all")
    (hc : chanAt w.channels target = some c) (hroom : c.buf.length < c.cap) :
    send a m target order w =
      (⟨putChan w.channels target ⟨c.cap, c.buf ++ [⟨some m, a.id⟩]⟩,
        w.shareData.incrementMsgsSent⟩, none) := by
  have h1 : ¬ w.channels.length ≤ 1 := by omega
  simp [send, h1, hto, trySendTo_of_room _ _ _ c hc hroom]

theorem send_of_full (a : Actor) (m target : String) (order : List String) (w : World)
    (c : Chan) (hlen : 2 ≤ w.channels.length) (hto : target ≠ "all")
    (hc : chanAt w.channels target = some c) (hfull : c.cap ≤ c.buf.length) :
    send a m target order w = (w, some "Channel is full") := by
  have h1 : ¬ w.channels.length ≤ 1 := by omega
  simp [send, h1, hto, trySendTo_of_full _ _ _ c hc hfull]

/-- A run of point-to-point sends into one mailbox with room for all of them: every call
returns nil and the messages are appended in call order. -/
theorem sendEach_of_room (target : String) (order : List String)
    (sends : List (Actor × String)) :
    ∀ (w : World) (c : Chan), 2 ≤ w.channels.length → target ≠ "all" →
      chanAt w.channels target = some c → c.buf.length + sends.length ≤ c.cap →
      sendEach target order sends w =
        (⟨putChan w.channels target
            ⟨c.cap, c.buf ++ sends.map (fun p => ⟨some p.2, p.1.id⟩)⟩,
          { w.shareData with nMsgsSent := w.shareData.nMsgsSent + sends.length }⟩,
         List.replicate sends.length none) := by
  induction sends with
  | nil =>
    intro w c _ _ hc _
    simp [sendEach, putChan_same _ _ _ hc]
  | cons p rest ih =>
    intro w c hlen hto hc hfit
    obtain ⟨a, m⟩ := p
    simp only [List.length_cons] at hfit
    have h1 := send_of_room a m target order w c hlen hto hc (by omega)
    have h2 := ih ⟨putChan w.channels target ⟨c.cap, c.buf ++ [⟨some m, a.id⟩]⟩,
        w.shareData.incrementMsgsSent⟩ ⟨c.cap, c.buf ++ [⟨some m, a.id⟩]⟩
      (by simpa [length_putChan_of_some _ _ _ c hc] using hlen) hto
      (chanAt_putChan_self _ _ _) (by simp; omega)
    simp only [sendEach, h1, h2]
    simp [putChan_putChan, ShareState.incrementMsgsSent, List.replicate_succ, add_assoc,
      add_comm (1 : Int)]

/-- Counting the keys whose mailbox satisfies `p`, when `p` holds of exactly the
non-sender keys of a prefix of the iteration order. -/
theorem length_filter_keys_of_visited (channels : Channels) (order visited rest : List String)
    (x : String) (p : String → Bool) (horder : order.Perm (keys channels))
    (hnd : order.Nodup) (hsplit : order = visited ++ rest)
    (hp : ∀ k, p k = true ↔ (k ∈ visited ∧ k ≠ x)) :
    ((keys channels).filter p).length = (visited.filter (· ≠ x)).length := by
  rw [← (List.Perm.filter p horder).length_eq, hsplit, List.filter_append]
  have hdisj : ∀ k ∈ rest, k ∉ visited := by
    intro k hk hv
    rw [hsplit] at hnd
    exact (List.nodup_append.mp hnd).2.2 hv hk
  have hrest : rest.filter p = [] := by
    rw [List.filter_eq_nil_iff]
    intro k hk hpk
    exact hdisj k hk ((hp k).mp hpk).1
  have hvis : visited.filter p = visited.filter (· ≠ x) := by
    apply List.filter_congr
    intro k hk
    by_cases hkx : k = x
    · have : p k = false := by
        cases hpk : p k with
        | false => rfl
        | true => exact absurd hkx ((hp k).mp hpk).2
      rw [this]
      simp [hkx]
    · have : p k = true := (hp k).mpr ⟨hk, hkx⟩
      simp [this, hkx]
  rw [hrest, hvis]
  simp

/-! ## Receiving -/

theorem tryRecvFrom_nil (channels : Channels) (k : String) (n : Nat)
    (hc : chanAt channels k = some ⟨n, []⟩) : tryRecvFrom channels k = none := by
  simp [tryRecvFrom, hc, Chan.tryRecv]

theorem tryRecvFrom_cons (channels : Channels) (k : String) (n : Nat) (v : Message)
    (rest : List Message) (hc : chanAt channels k = some ⟨n, v :: rest⟩) :
    tryRecvFrom channels k = some (v, putChan channels k ⟨n, rest⟩) := by
  simp [tryRecvFrom, hc, Chan.tryRecv]

/-- The drain loop on a mailbox holding `buf`: with more fuel than messages it returns
them all, oldest first, after the ones already accumulated, and leaves the mailbox empty. -/
theorem receiveLoop_drains (a : Actor) (buf : List Message) :
    ∀ (fuel : Nat) (w : World) (n : Nat) (messages : List Message),
      chanAt w.channels a.id = some ⟨n, buf⟩ → buf.length < fuel →
      receiveLoop a fuel w messages =
        some (⟨putChan w.channels a.id ⟨n, []⟩,
               { w.shareData with
                 nMsgsProcessed := w.shareData.nMsgsProcessed + buf.length }⟩,
              messages ++ buf, none) := by
  induction buf with
  | nil =>
    intro fuel w n messages hc hfuel
    obtain ⟨fuel, rfl⟩ : ∃ f, fuel = f + 1 := ⟨fuel - 1, by simp at hfuel; omega⟩
    simp [receiveLoop, tryRecvFrom_nil _ _ _ hc, putChan_same _ _ _ hc]
  | cons v rest ih =>
    intro fuel w n messages hc hfuel
    obtain ⟨fuel, rfl⟩ : ∃ f, fuel = f + 1 := ⟨fuel - 1, by simp at hfuel; omega⟩
    simp only [List.length_cons] at hfuel
    have h2 := ih fuel ⟨putChan w.channels a.id ⟨n, rest⟩,
        w.shareData.incrementMsgsProcessed⟩ n (messages ++ [v])
      (chanAt_putChan_self _ _ _) (by omega)
    simp only [receiveLoop, tryRecvFrom_cons _ _ _ _ _ hc, h2]
    simp [putChan_putChan, ShareState.incrementMsgsProcessed, add_assoc, add_comm (1 : Int)]

/-! ## Registration: reserved id, duplicate id, fresh id -/

/-- C1: for every map, every capacity and every value of the counters, `new("all", ...)`
returns a nil actor together with an error, and leaves the map and the three counters
(`nActors`, `nMsgsSent`, `nMsgsProcessed`) exactly as they were. -/
theorem new_all_is_reserved (chanLimit : Nat) (channels : Channels) (channelCap : Int)
    (sharedData : ShareState) :
    new chanLimit "all" channels channelCap sharedData =
      .returned (none, some "Actor id 'all' is reserved") ⟨channels, sharedData⟩ := by
  simp [new]

/-- C2: for an id that is already a key of the map, `new(id, ...)` returns a nil actor
together with an error and leaves the map (the mailbox of `id` and its pending messages
included) and the three counters exactly as they were; and whenever a call `new(id, ...)`
has returned, from any state, a second call with the same id returns a nil actor and an
error and changes nothing. -/
theorem new_existing_id_fails (chanLimit : Nat) (id : String) (channels : Channels)
    (channelCap : Int) (sharedData : ShareState) (hin : id ∈ keys channels) :
    new chanLimit id channels channelCap sharedData =
        .returned
          (none, some (if id = "all" then "Actor id 'all' is reserved"
                       else "Actor id already exists"))
          ⟨channels, sharedData⟩ ∧
      ∀ (channels0 : Channels) (cap0 : Int) (sharedData0 : ShareState)
        (r : Option Actor × Option String) (w1 : World),
        new chanLimit id channels0 cap0 sharedData0 = .returned r w1 →
        new chanLimit id w1.channels channelCap w1.shareData =
          .returned
            (none, some (if id = "all" then "Actor id 'all' is reserved"
                         else "Actor id already exists"))
            w1 := by
  have hdup : ∀ (chs : Channels) (sd : ShareState), (chanAt chs id).isSome →
      new chanLimit id chs channelCap sd =
        .returned
          (none, some (if id = "all" then "Actor id 'all' is reserved"
                       else "Actor id already exists"))
          ⟨chs, sd⟩ := by
    intro chs sd h
    by_cases hall : id = "all"
    · simp [new, hall]
    · simp [new, hall, h]
  constructor
  · apply hdup
    obtain ⟨c, hc⟩ := exists_chanAt_of_mem_keys channels id hin
    simp [hc]
  · intro channels0 cap0 sharedData0 r w1 hfirst
    by_cases hall : id = "all"
    · subst hall
      simp [new]
    · apply hdup
      unfold new at hfirst
      rw [if_neg hall] at hfirst
      by_cases hex : (chanAt channels0 id).isSome
      · rw [if_pos hex] at hfirst
        injection hfirst with _ hw
        rw [← hw]
        exact hex
      · by_cases hrefused : cap0 < 0 ∨ chanSizeBound ≤ cap0 ∨ (chanLimit : Int) < cap0
        · rw [if_neg hex, if_pos hrefused] at hfirst
          exact Outcome.noConfusion hfirst
        · rw [if_neg hex, if_neg hrefused] at hfirst
          injection hfirst with _ hw
          rw [← hw]
          simp [chanAt_putChan_self]

/-- Instance of C2: the map holds actor "1" with one pending message; registering "1"
again fails and changes nothing, and so does a second registration right after a first. -/
theorem new_existing_id_fails_witness :
    "1" ∈ keys [("1", (⟨3, [⟨some "x", "2"⟩]⟩ : Chan))] ∧
      (new 8 "1" [("1", ⟨3, [⟨some "x", "2"⟩]⟩)] 3 ⟨1, 0, 1⟩ =
          .returned
            (none, some (if "1" = "all" then "Actor id 'all' is reserved"
                         else "Actor id already exists"))
            ⟨[("1", ⟨3, [⟨some "x", "2"⟩]⟩)], ⟨1, 0, 1⟩⟩ ∧
        ∀ (channels0 : Channels) (cap0 : Int) (sharedData0 : ShareState)
          (r : Option Actor × Option String) (w1 : World),
          new 8 "1" channels0 cap0 sharedData0 = .returned r w1 →
          new 8 "1" w1.channels 3 w1.shareData =
            .returned
              (none, some (if "1" = "all" then "Actor id 'all' is reserved"
                           else "Actor id already exists"))
              w1) ∧
    new 8 "1" [] 3 ⟨0, 0, 0⟩ = .returned (some ⟨"1"⟩, none) ⟨[("1", ⟨3, []⟩)], ⟨1, 0, 0⟩⟩ ∧
    new 8 "1" [("1", ⟨3, []⟩)] 3 ⟨1, 0, 0⟩ =
      .returned (none, some "Actor id already exists") ⟨[("1", ⟨3, []⟩)], ⟨1, 0, 0⟩⟩ :=
  ⟨by decide,
    new_existing_id_fails 8 "1" [("1", ⟨3, [⟨some "x", "2"⟩]⟩)] 3 ⟨1, 0, 1⟩ (by decide),
    by decide, by decide⟩

/-- C3, as stated, fails for the capacities that `make` refuses.  "1" is not "all" and
not a key of the empty map, yet on every machine `new("1", channels, -1, sharedData)`
does not return, and neither does `new("1", channels, 8796093022208, sharedData)`
(capacity `2^43`): `make` panics. -/
theorem new_refused_capacity_panics :
    "1" ≠ "all" ∧ "1" ∉ keys [] ∧
    (∀ chanLimit : Nat,
      new chanLimit "1" [] (-1) ⟨0, 0, 0⟩ = .panicked "makechan: size out of range" ∧
      new chanLimit "1" [] 8796093022208 ⟨0, 0, 0⟩ =
        .panicked "makechan: size out of range" ∧
      ¬ ∃ (r : Option Actor × Option String) (w' : World),
        new chanLimit "1" [] (-1) ⟨0, 0, 0⟩ = .returned r w') := by
  refine ⟨by decide, by decide, fun chanLimit => ?_⟩
  have h1 := new_of_refused chanLimit "1" [] (-1) ⟨0, 0, 0⟩ (by decide) rfl
    (Or.inl (by decide))
  have h2 := new_of_refused chanLimit "1" [] 8796093022208 ⟨0, 0, 0⟩ (by decide) rfl
    (Or.inr (Or.inl (by decide)))
  refine ⟨h1, h2, ?_⟩
  rintro ⟨r, w', h⟩
  rw [h1] at h
  exact Outcome.noConfusion h

/-- C3, amended: for an id other than "all" that is not a key of the map, and a capacity
that `make` grants (not negative, below `chanSizeBound`, and at most the largest size
`chanLimit` that the machine grants), `new(id, channels, channelCap, sharedData)` returns
the actor with that id and a nil error; afterwards the keys of the map are the old keys
and `id`, `id` is mapped to an empty mailbox of capacity `channelCap`, every other key is
mapped to what it was, `nActors` is one more, and `nMsgsSent` and `nMsgsProcessed` are as
before. -/
theorem new_fresh_id_succeeds (chanLimit : Nat) (id : String) (channels : Channels)
    (channelCap : Int) (sharedData : ShareState) (hall : id ≠ "all")
    (hfresh : id ∉ keys channels) (hcap : 0 ≤ channelCap)
    (hbound : channelCap < chanSizeBound) (hlimit : channelCap ≤ chanLimit) :
    ∃ w' : World,
      new chanLimit id channels channelCap sharedData = .returned (some ⟨id⟩, none) w' ∧
      keys w'.channels = keys channels ++ [id] ∧
      w'.channels.length = channels.length + 1 ∧
      (∃ c, chanAt w'.channels id = some c ∧ (c.cap : Int) = channelCap ∧ c.buf = []) ∧
      (∀ k, k ≠ id → chanAt w'.channels k = chanAt channels k) ∧
      w'.shareData.nActors = sharedData.nActors + 1 ∧
      w'.shareData.nMsgsSent = sharedData.nMsgsSent ∧
      w'.shareData.nMsgsProcessed = sharedData.nMsgsProcessed := by
  have hnone : chanAt channels id = none := (chanAt_eq_none_iff channels id).mpr hfresh
  refine ⟨_, new_of_fresh chanLimit id channels channelCap sharedData hall hnone hcap hbound
    hlimit, ?_, ?_, ?_, ?_, rfl, rfl, rfl⟩
  · simp [keys]
  · simp
  · refine ⟨⟨channelCap.toNat, []⟩, ?_, Int.toNat_of_nonneg hcap, rfl⟩
    rw [← putChan_of_none channels id _ hnone]
    exact chanAt_putChan_self _ _ _
  · intro k hk
    show chanAt (channels ++ [(id, ⟨channelCap.toNat, []⟩)]) k = chanAt channels k
    rw [← putChan_of_none channels id _ hnone]
    exact chanAt_putChan_of_ne _ _ _ _ hk

/-- Instance of C3, amended: registering "3" with capacity 3, on a machine that grants
sizes up to 8, next to actors "1" and "2", one of which has a pending message. -/
theorem new_fresh_id_succeeds_witness :
    ("3" ≠ "all" ∧ "3" ∉ keys [("1", (⟨3, [⟨some "x", "2"⟩]⟩ : Chan)), ("2", ⟨3, []⟩)] ∧
      (0 : Int) ≤ 3 ∧ (3 : Int) < chanSizeBound ∧ (3 : Int) ≤ (8 : Nat)) ∧
    ∃ w' : World,
      new 8 "3" [("1", ⟨3, [⟨some "x", "2"⟩]⟩), ("2", ⟨3, []⟩)] 3 ⟨2, 0, 1⟩ =
        .returned (some ⟨"3"⟩, none) w' ∧
      keys w'.channels = keys [("1", (⟨3, [⟨some "x", "2"⟩]⟩ : Chan)), ("2", ⟨3, []⟩)] ++ ["3"] ∧
      w'.channels.length =
        [("1", (⟨3, [⟨some "x", "2"⟩]⟩ : Chan)), ("2", ⟨3, []⟩)].length + 1 ∧
      (∃ c, chanAt w'.channels "3" = some c ∧ (c.cap : Int) = 3 ∧ c.buf = []) ∧
      (∀ k, k ≠ "3" → chanAt w'.channels k =
        chanAt [("1", ⟨3, [⟨some "x", "2"⟩]⟩), ("2", ⟨3, []⟩)] k) ∧
      w'.shareData.nActors = (⟨2, 0, 1⟩ : ShareState).nActors + 1 ∧
      w'.shareData.nMsgsSent = (⟨2, 0, 1⟩ : ShareState).nMsgsSent ∧
      w'.shareData.nMsgsProcessed = (⟨2, 0, 1⟩ : ShareState).nMsgsProcessed :=
  ⟨⟨by decide, by decide, by decide, by decide, by decide⟩,
    new_fresh_id_succeeds 8 "3" [("1", ⟨3, [⟨some "x", "2"⟩]⟩), ("2", ⟨3, []⟩)] 3 ⟨2, 0, 1⟩
      (by decide) (by decide) (by decide) (by decide) (by decide)⟩

/-- C4: take pairwise distinct ids, none of them "all", each with a capacity, and
register them one after the other starting from an empty map and zeroed counters, doing
nothing else.  Whenever that run completes (on any machine), `nActors` equals the number
of ids, the map has exactly those keys, as many as there are ids, and
`nMsgsSent = nMsgsProcessed = 0`. -/
theorem registerAll_counts (chanLimit : Nat) (regs : List (String × Int))
    (hdistinct : (regs.map Prod.fst).Nodup) (hall : ∀ r ∈ regs, r.1 ≠ "all") :
    ∀ w : World, registerAll chanLimit regs World.init = some w →
      w.shareData.nActors = regs.length ∧
      w.channels.length = regs.length ∧
      keys w.channels = regs.map Prod.fst ∧
      w.shareData.nMsgsSent = 0 ∧
      w.shareData.nMsgsProcessed = 0 := by
  intro w hw
  have hprops := registerAll_of_distinct chanLimit regs World.init
    (by simpa [World.init, keys] using hdistinct) hall w hw
  simpa [World.init, keys, Function.comp_def] using hprops

/-- Instance of C4: the three registrations of `main`, which complete on a machine that
grants sizes up to 8. -/
theorem registerAll_counts_witness :
    ((([("1", 3), ("2", 3), ("3", 3)] : List (String × Int)).map Prod.fst).Nodup ∧
      (∀ r ∈ ([("1", 3), ("2", 3), ("3", 3)] : List (String × Int)), r.1 ≠ "all") ∧
      registerAll 8 [("1", 3), ("2", 3), ("3", 3)] World.init =
        some ⟨[("1", ⟨3, []⟩), ("2", ⟨3, []⟩), ("3", ⟨3, []⟩)], ⟨3, 0, 0⟩⟩) ∧
    ((3 : Int) = ([("1", 3), ("2", 3), ("3", 3)] : List (String × Int)).length ∧
      ([("1", ⟨3, []⟩), ("2", ⟨3, []⟩), ("3", ⟨3, []⟩)] : Channels).length =
        ([("1", 3), ("2", 3), ("3", 3)] : List (String × Int)).length ∧
      keys [("1", ⟨3, []⟩), ("2", ⟨3, []⟩), ("3", ⟨3, []⟩)] =
        ([("1", 3), ("2", 3), ("3", 3)] : List (String × Int)).map Prod.fst ∧
      (0 : Int) = 0 ∧ (0 : Int) = 0) :=
  ⟨⟨by decide, by decide, by decide⟩,
    registerAll_counts 8 [("1", 3), ("2", 3), ("3", 3)] (by decide) (by decide)
      ⟨[("1", ⟨3, []⟩), ("2", ⟨3, []⟩), ("3", ⟨3, []⟩)], ⟨3, 0, 0⟩⟩ (by decide)⟩

/-! ## Point-to-point sends -/

/-- C5: when the map holds exactly one actor, `send(m, target)` returns an error for
every payload, every target (a registered id, an unknown id, the sender's own id, "all"),
every sender and every iteration order, and leaves every mailbox and every counter as
it was. -/
theorem send_single_actor_fails (a : Actor) (m target : String) (order : List String)
    (w : World) (hone : w.channels.length = 1) :
    send a m target order w = (w, some "No other actors to send message to") := by
  simp [send, hone]

/-- Instance of C5: the only actor "1" sends to itself, to "all" and to an unknown id. -/
theorem send_single_actor_fails_witness :
    ([("1", (⟨3, []⟩ : Chan))] : Channels).length = 1 ∧
    send ⟨"1"⟩ "x" "all" ["1"] ⟨[("1", ⟨3, []⟩)], ⟨1, 0, 0⟩⟩ =
      (⟨[("1", ⟨3, []⟩)], ⟨1, 0, 0⟩⟩, some "No other actors to send message to") :=
  ⟨by decide,
    send_single_actor_fails ⟨"1"⟩ "x" "all" ["1"] ⟨[("1", ⟨3, []⟩)], ⟨1, 0, 0⟩⟩ (by decide)⟩

/-- C6: in a map with at least two actors, a `send(m, target)` to a registered target
other than "all" whose mailbox already holds as many messages as its capacity returns an
error and leaves the whole world as it was: `nMsgsSent` is not incremented, the target
mailbox keeps its contents, and every other mailbox and counter is unchanged. -/
theorem send_full_mailbox_fails (a : Actor) (m target : String) (order : List String)
    (w : World) (c : Chan) (hlen : 2 ≤ w.channels.length) (hto : target ≠ "all")
    (hc : chanAt w.channels target = some c) (hfull : c.cap ≤ c.buf.length) :
    send a m target order w = (w, some "Channel is full") :=
  send_of_full a m target order w c hlen hto hc hfull

/-- Instance of C6, the scenario of the claim: capacity 1, actors "1" and "2"; actor "1"
sends twice to "2" with no drain in between: the first send returns nil, the second
returns an error and changes nothing, and `nMsgsSent` is 1. -/
theorem send_full_mailbox_fails_witness :
    registerAll 8 [("1", 1), ("2", 1)] World.init =
      some ⟨[("1", ⟨1, []⟩), ("2", ⟨1, []⟩)], ⟨2, 0, 0⟩⟩ ∧
    send ⟨"1"⟩ "x" "2" ["1", "2"] ⟨[("1", ⟨1, []⟩), ("2", ⟨1, []⟩)], ⟨2, 0, 0⟩⟩ =
      (⟨[("1", ⟨1, []⟩), ("2", ⟨1, [⟨some "x", "1"⟩]⟩)], ⟨2, 0, 1⟩⟩, none) ∧
    (2 ≤ ([("1", ⟨1, []⟩), ("2", ⟨1, [⟨some "x", "1"⟩]⟩)] : Channels).length ∧
      "2" ≠ "all" ∧
      chanAt [("1", ⟨1, []⟩), ("2", ⟨1, [⟨some "x", "1"⟩]⟩)] "2" =
        some ⟨1, [⟨some "x", "1"⟩]⟩ ∧
      (⟨1, [⟨some "x", "1"⟩]⟩ : Chan).cap ≤ (⟨1, [⟨some "x", "1"⟩]⟩ : Chan).buf.length) ∧
    send ⟨"1"⟩ "y" "2" ["1", "2"]
        ⟨[("1", ⟨1, []⟩), ("2", ⟨1, [⟨some "x", "1"⟩]⟩)], ⟨2, 0, 1⟩⟩ =
      (⟨[("1", ⟨1, []⟩), ("2", ⟨1, [⟨some "x", "1"⟩]⟩)], ⟨2, 0, 1⟩⟩,
        some "Channel is full") :=
  ⟨by decide, by decide, ⟨by decide, by decide, by decide, by decide⟩,
    send_full_mailbox_fails ⟨"1"⟩ "y" "2" ["1", "2"]
      ⟨[("1", ⟨1, []⟩), ("2", ⟨1, [⟨some "x", "1"⟩]⟩)], ⟨2, 0, 1⟩⟩ ⟨1, [⟨some "x", "1"⟩]⟩
      (by decide) (by decide) (by decide) (by decide)⟩

/-- C7: in a map with at least two actors, a `send(m, target)` to a registered target
other than "all" (the sender's own id included) whose mailbox holds fewer messages than
its capacity returns nil; afterwards the target mailbox holds its old messages followed
by the one message `{m, a.id}`, with the same capacity, every other key is mapped to what
it was, the keys are the same, `nMsgsSent` is one more, and `nActors` and
`nMsgsProcessed` are as before. -/
theorem send_with_room_delivers (a : Actor) (m target : String) (order : List String)
    (w : World) (c : Chan) (hlen : 2 ≤ w.channels.length) (hto : target ≠ "all")
    (hc : chanAt w.channels target = some c) (hroom : c.buf.length < c.cap) :
    ∃ w' : World,
      send a m target order w = (w', none) ∧
      chanAt w'.channels target = some ⟨c.cap, c.buf ++ [⟨some m, a.id⟩]⟩ ∧
      (∀ k, k ≠ target → chanAt w'.channels k = chanAt w.channels k) ∧
      keys w'.channels = keys w.channels ∧
      w'.shareData.nMsgsSent = w.shareData.nMsgsSent + 1 ∧
      w'.shareData.nActors = w.shareData.nActors ∧
      w'.shareData.nMsgsProcessed = w.shareData.nMsgsProcessed :=
  ⟨_, send_of_room a m target order w c hlen hto hc hroom,
    chanAt_putChan_self _ _ _,
    fun _ hk => chanAt_putChan_of_ne _ _ _ _ hk,
    keys_putChan_of_some _ _ _ c hc, rfl, rfl, rfl⟩

/-- Instance of C7, the scenario of the specification: capacity 3, actors "1", "2", "3";
`send(from 1, "x", to "2")` returns nil, a following `receiveMany` on "2" returns
`[{x, sender: 1}]`, and the counters show one message sent and one processed. -/
theorem send_with_room_delivers_witness :
    (2 ≤ ([("1", ⟨3, []⟩), ("2", ⟨3, []⟩), ("3", ⟨3, []⟩)] : Channels).length ∧
      "2" ≠ "all" ∧
      chanAt [("1", ⟨3, []⟩), ("2", ⟨3, []⟩), ("3", ⟨3, []⟩)] "2" = some ⟨3, []⟩ ∧
      (⟨3, []⟩ : Chan).buf.length < (⟨3, []⟩ : Chan).cap) ∧
    (∃ w' : World,
      send ⟨"1"⟩ "x" "2" ["1", "2", "3"]
        ⟨[("1", ⟨3, []⟩), ("2", ⟨3, []⟩), ("3", ⟨3, []⟩)], ⟨3, 0, 0⟩⟩ = (w', none) ∧
      chanAt w'.channels "2" =
        some ⟨(⟨3, []⟩ : Chan).cap, (⟨3, []⟩ : Chan).buf ++ [⟨some "x", (⟨"1"⟩ : Actor).id⟩]⟩ ∧
      (∀ k, k ≠ "2" → chanAt w'.channels k =
        chanAt [("1", ⟨3, []⟩), ("2", ⟨3, []⟩), ("3", ⟨3, []⟩)] k) ∧
      keys w'.channels = keys [("1", ⟨3, []⟩), ("2", ⟨3, []⟩), ("3", ⟨3, []⟩)] ∧
      w'.shareData.nMsgsSent = (⟨3, 0, 0⟩ : ShareState).nMsgsSent + 1 ∧
      w'.shareData.nActors = (⟨3, 0, 0⟩ : ShareState).nActors ∧
      w'.shareData.nMsgsProcessed = (⟨3, 0, 0⟩ : ShareState).nMsgsProcessed) ∧
    receiveMany 2 ⟨"2"⟩
        (send ⟨"1"⟩ "x" "2" ["1", "2", "3"]
          ⟨[("1", ⟨3, []⟩), ("2", ⟨3, []⟩), ("3", ⟨3, []⟩)], ⟨3, 0, 0⟩⟩).1 =
      some (⟨[("1", ⟨3, []⟩), ("2", ⟨3, []⟩), ("3", ⟨3, []⟩)], ⟨3, 1, 1⟩⟩,
        [⟨some "x", "1"⟩], none) :=
  ⟨⟨by decide, by decide, by decide, by decide⟩,
    send_with_room_delivers ⟨"1"⟩ "x" "2" ["1", "2", "3"]
      ⟨[("1", ⟨3, []⟩), ("2", ⟨3, []⟩), ("3", ⟨3, []⟩)], ⟨3, 0, 0⟩⟩ ⟨3, []⟩
      (by decide) (by decide) (by decide) (by decide),
    by decide⟩

/-- C8, as stated, fails in a map with a single actor: the mailbox of "1" is empty with
capacity 3, and the one point-to-point send of "x" by "1" to "1" returns an error
(`len(channels) <= 1`), so that the following `receiveMany` by "1" returns no message. -/
theorem fifo_single_actor_send_fails :
    chanAt [("1", ⟨3, []⟩)] "1" = some ⟨3, []⟩ ∧
    ([(⟨"1"⟩, "x")] : List (Actor × String)).length ≤ 3 ∧
    (sendEach "1" ["1"] [(⟨"1"⟩, "x")] ⟨[("1", ⟨3, []⟩)], ⟨1, 0, 0⟩⟩).2 =
      [some "No other actors to send message to"] ∧
    (∀ fuel, 1 < fuel →
      receiveMany fuel ⟨"1"⟩
          (sendEach "1" ["1"] [(⟨"1"⟩, "x")] ⟨[("1", ⟨3, []⟩)], ⟨1, 0, 0⟩⟩).1 =
        some (⟨[("1", ⟨3, []⟩)], ⟨1, 0, 0⟩⟩, [], none)) := by
  refine ⟨by decide, by decide, by decide, ?_⟩
  intro fuel hfuel
  obtain ⟨f, rfl⟩ : ∃ f, fuel = f + 1 := ⟨fuel - 1, by omega⟩
  rfl

/-- C8, amended: FIFO round trip.  In a map with at least two actors, take a registered target
other than "all" whose mailbox is empty and has capacity `n`, and any list of at most `n`
point-to-point sends to it, by any senders with any payloads.  Every send returns nil,
and a following `receiveMany` by the owner of the mailbox returns (for every fuel above
the number of sends), with a nil error, exactly one message per send, carrying that
send's payload and sender, in the order of the sends. -/
theorem fifo_round_trip (target : String) (order : List String)
    (sends : List (Actor × String)) (w : World) (n : Nat)
    (hlen : 2 ≤ w.channels.length) (hto : target ≠ "all")
    (hempty : chanAt w.channels target = some ⟨n, []⟩) (hfit : sends.length ≤ n) :
    (sendEach target order sends w).2 = List.replicate sends.length none ∧
    ∀ fuel, sends.length < fuel →
      ∃ w' : World,
        receiveMany fuel ⟨target⟩ (sendEach target order sends w).1 =
          some (w', sends.map (fun p => ⟨some p.2, p.1.id⟩), none) := by
  have hsend := sendEach_of_room target order sends w ⟨n, []⟩ hlen hto hempty
    (by simpa using hfit)
  rw [hsend]
  refine ⟨rfl, fun fuel hfuel => ?_⟩
  have hdrain := receiveLoop_drains ⟨target⟩ (sends.map (fun p => ⟨some p.2, p.1.id⟩)) fuel
    ⟨putChan w.channels target ⟨n, [] ++ sends.map (fun p => ⟨some p.2, p.1.id⟩)⟩,
      { w.shareData with nMsgsSent := w.shareData.nMsgsSent + sends.length }⟩ n []
    (by simpa using chanAt_putChan_self _ _ _) (by simpa using hfuel)
  exact ⟨_, hdrain⟩

/-- Instance of C8: three sends by three senders (one of them the owner) into the empty
mailbox of "2", capacity 3, then a drain by "2". -/
theorem fifo_round_trip_witness :
    (2 ≤ ([("1", ⟨3, []⟩), ("2", ⟨3, []⟩), ("3", ⟨3, []⟩)] : Channels).length ∧
      "2" ≠ "all" ∧
      chanAt [("1", ⟨3, []⟩), ("2", ⟨3, []⟩), ("3", ⟨3, []⟩)] "2" = some ⟨3, []⟩ ∧
      ([(⟨"1"⟩, "a"), (⟨"3"⟩, "b"), (⟨"2"⟩, "c")] : List (Actor × String)).length ≤ 3) ∧
    ((sendEach "2" ["3", "1", "2"] [(⟨"1"⟩, "a"), (⟨"3"⟩, "b"), (⟨"2"⟩, "c")]
        ⟨[("1", ⟨3, []⟩), ("2", ⟨3, []⟩), ("3", ⟨3, []⟩)], ⟨3, 0, 0⟩⟩).2 =
        List.replicate
          ([(⟨"1"⟩, "a"), (⟨"3"⟩, "b"), (⟨"2"⟩, "c")] : List (Actor × String)).length none ∧
      ∀ fuel, ([(⟨"1"⟩, "a"), (⟨"3"⟩, "b"), (⟨"2"⟩, "c")] : List (Actor × String)).length
          < fuel →
        ∃ w' : World,
          receiveMany fuel ⟨"2"⟩
              (sendEach "2" ["3", "1", "2"] [(⟨"1"⟩, "a"), (⟨"3"⟩, "b"), (⟨"2"⟩, "c")]
                ⟨[("1", ⟨3, []⟩), ("2", ⟨3, []⟩), ("3", ⟨3, []⟩)], ⟨3, 0, 0⟩⟩).1 =
            some (w', ([(⟨"1"⟩, "a"), (⟨"3"⟩, "b"), (⟨"2"⟩, "c")] :
              List (Actor × String)).map (fun p => ⟨some p.2, p.1.id⟩), none)) ∧
    receiveMany 4 ⟨"2"⟩
        (sendEach "2" ["3", "1", "2"] [(⟨"1"⟩, "a"), (⟨"3"⟩, "b"), (⟨"2"⟩, "c")]
          ⟨[("1", ⟨3, []⟩), ("2", ⟨3, []⟩), ("3", ⟨3, []⟩)], ⟨3, 0, 0⟩⟩).1 =
      some (⟨[("1", ⟨3, []⟩), ("2", ⟨3, []⟩), ("3", ⟨3, []⟩)], ⟨3, 3, 3⟩⟩,
        [⟨some "a", "1"⟩, ⟨some "b", "3"⟩, ⟨some "c", "2"⟩], none) :=
  ⟨⟨by decide, by decide, by decide, by decide⟩,
    fifo_round_trip "2" ["3", "1", "2"] [(⟨"1"⟩, "a"), (⟨"3"⟩, "b"), (⟨"2"⟩, "c")]
      ⟨[("1", ⟨3, []⟩), ("2", ⟨3, []⟩), ("3", ⟨3, []⟩)], ⟨3, 0, 0⟩⟩ 3
      (by decide) (by decide) (by decide) (by decide),
    by decide⟩

/-! ## Broadcast -/

/-- C9: take a map without duplicate keys holding at least two actors, a registered
sender, and any iteration order of the map; if no mailbox other than the sender's is full,
`send(m, "all")` returns nil, every mailbox other than the sender's holds its old messages
followed by the one message `{m, a.id}`, the sender's mailbox and the keys are unchanged,
`nMsgsSent` has grown by the number of actors minus one, and `nActors` and
`nMsgsProcessed` are as before. -/
theorem broadcast_reaches_all_others (a : Actor) (m : String) (order : List String)
    (w : World) (hwf : (keys w.channels).Nodup) (horder : order.Perm (keys w.channels))
    (hreg : a.id ∈ keys w.channels) (hlen : 2 ≤ w.channels.length)
    (hroom : ∀ e ∈ w.channels, e.1 ≠ a.id → e.2.buf.length < e.2.cap) :
    ∃ w' : World,
      send a m "all" order w = (w', none) ∧
      (∀ k c, k ≠ a.id → chanAt w.channels k = some c →
        chanAt w'.channels k = some ⟨c.cap, c.buf ++ [⟨some m, a.id⟩]⟩) ∧
      chanAt w'.channels a.id = chanAt w.channels a.id ∧
      keys w'.channels = keys w.channels ∧
      w'.shareData.nMsgsSent + 1 = w.shareData.nMsgsSent + w.channels.length ∧
      w'.shareData.nActors = w.shareData.nActors ∧
      w'.shareData.nMsgsProcessed = w.shareData.nMsgsProcessed := by
  have hnd : order.Nodup := horder.nodup_iff.mpr hwf
  have hsend : send a m "all" order w = sendAll a m order w := by
    have h1 : ¬ w.channels.length ≤ 1 := by omega
    simp [send, h1]
  obtain ⟨visited, rest, hsplit, hsd, hgain, hsame, hkeys, hend⟩ :=
    sendAll_spec a m order w hnd
  rcases hend with ⟨hnone, hrest⟩ | ⟨_, k, rest', hrest, hne, hfull⟩
  · subst hrest
    simp only [List.append_nil] at hsplit
    subst hsplit
    refine ⟨(sendAll a m order w).1, ?_, ?_, ?_, hkeys, ?_, ?_, ?_⟩
    · rw [hsend, ← hnone]
    · intro k c hk hc
      have hmem : k ∈ order := by
        apply horder.mem_iff.mpr
        by_contra hnot
        rw [(chanAt_eq_none_iff _ _).mpr hnot] at hc
        exact Option.noConfusion hc
      obtain ⟨c', hc', _, hres⟩ := hgain k hmem hk
      rw [hc] at hc'
      cases hc'
      exact hres
    · exact hsame a.id (fun h => h.2 rfl)
    · rw [hsd]
      have hcount := length_filter_ne_of_nodup order a.id hnd (horder.mem_iff.mpr hreg)
      have hl : order.length = w.channels.length := by
        rw [horder.length_eq, length_keys]
      show w.shareData.nMsgsSent + ((order.filter (· ≠ a.id)).length : Nat) + 1 = _
      rw [← hl, ← hcount]
      push_cast
      ring
    · rw [hsd]
    · rw [hsd]
  · exfalso
    have hmem : k ∈ keys w.channels := by
      apply horder.mem_iff.mp
      rw [hsplit, hrest]
      simp
    obtain ⟨c, hc⟩ := exists_chanAt_of_mem_keys _ _ hmem
    have h1 := hroom (k, c) (chanAt_some_mem _ _ _ hc) hne
    have h2 := hfull c hc
    simp only at h1
    omega

/-- C10: take a map without duplicate keys and any iteration order of it.  Whenever
`send(m, "all")` returns an error, the order splits into the keys visited before the
return and the rest, such that: either the map has at most one actor and nothing was
visited, or the rest starts with a key other than the sender whose mailbox is full; every
visited key other than the sender had room and now holds its old messages followed by the
one message `{m, a.id}`; every other key (the full mailbox, the keys not yet visited, the
sender) is mapped to what it was; `nMsgsSent` has grown by the number of visited keys
other than the sender, which is the number of keys whose mailbox changed; and `nActors`
and `nMsgsProcessed` are as before. -/
theorem broadcast_failure_keeps_deliveries (a : Actor) (m : String) (order : List String)
    (w w' : World) (e : String) (hwf : (keys w.channels).Nodup)
    (horder : order.Perm (keys w.channels))
    (hret : send a m "all" order w = (w', some e)) :
    ∃ visited rest : List String, order = visited ++ rest ∧
      ((w.channels.length ≤ 1 ∧ visited = []) ∨
       (2 ≤ w.channels.length ∧ ∃ k c rest', rest = k :: rest' ∧ k ≠ a.id ∧
          chanAt w.channels k = some c ∧ c.cap ≤ c.buf.length)) ∧
      (∀ k ∈ visited, k ≠ a.id → ∃ c, chanAt w.channels k = some c ∧
        c.buf.length < c.cap ∧
        chanAt w'.channels k = some ⟨c.cap, c.buf ++ [⟨some m, a.id⟩]⟩) ∧
      (∀ k, ¬ (k ∈ visited ∧ k ≠ a.id) → chanAt w'.channels k = chanAt w.channels k) ∧
      keys w'.channels = keys w.channels ∧
      w'.shareData.nMsgsSent =
        w.shareData.nMsgsSent + ((visited.filter (· ≠ a.id)).length : Nat) ∧
      w'.shareData.nMsgsSent =
        w.shareData.nMsgsSent +
          (((keys w.channels).filter
            (fun k => decide (chanAt w'.channels k ≠ chanAt w.channels k))).length : Nat) ∧
      w'.shareData.nActors = w.shareData.nActors ∧
      w'.shareData.nMsgsProcessed = w.shareData.nMsgsProcessed := by
  have hnd : order.Nodup := horder.nodup_iff.mpr hwf
  by_cases hlen : w.channels.length ≤ 1
  · have hw : w' = w := by
      simp only [send, hlen, if_true, Prod.mk.injEq] at hret
      exact hret.1.symm
    subst hw
    refine ⟨[], order, rfl, Or.inl ⟨hlen, rfl⟩, by simp, by simp, rfl, by simp, ?_, rfl, rfl⟩
    simp
  · have hsend : send a m "all" order w = sendAll a m order w := by
      simp [send, hlen]
    rw [hsend] at hret
    obtain ⟨visited, rest, hsplit, hsd, hgain, hsame, hkeys, hend⟩ :=
      sendAll_spec a m order w hnd
    rw [hret] at hsd hgain hsame hkeys hend
    simp only at hsd hgain hsame hkeys hend
    rcases hend with ⟨hnone, _⟩ | ⟨_, k, rest', hrest, hne, hfull⟩
    · exact Option.noConfusion hnone
    · have hmem : k ∈ keys w.channels := by
        apply horder.mem_iff.mp
        rw [hsplit, hrest]
        simp
      obtain ⟨c, hc⟩ := exists_chanAt_of_mem_keys _ _ hmem
      have hchanged : ∀ j,
          decide (chanAt w'.channels j ≠ chanAt w.channels j) = true ↔
            (j ∈ visited ∧ j ≠ a.id) := by
        intro j
        rw [decide_eq_true_iff]
        constructor
        · intro hj
          by_contra hnot
          exact hj (hsame j hnot)
        · rintro ⟨hj, hja⟩ heq
          obtain ⟨c', hc', _, hres⟩ := hgain j hj hja
          rw [heq, hc'] at hres
          have hlen := congrArg (fun o : Option Chan => (o.map (fun c => c.buf.length)).getD 0) hres
          simp at hlen
      have hcount := length_filter_keys_of_visited w.channels order visited rest a.id
        (fun j => decide (chanAt w'.channels j ≠ chanAt w.channels j)) horder hnd hsplit
        hchanged
      refine ⟨visited, rest, hsplit, Or.inr ⟨by omega, k, c, rest', hrest, hne, hc, hfull c hc⟩,
        hgain, hsame, hkeys, ?_, ?_, ?_, ?_⟩
      · rw [hsd]
      · rw [hsd, hcount]
      · rw [hsd]
      · rw [hsd]

/-- Instance of C9, the scenario of the claim: three actors, actor "3" broadcasts "hi";
the mailboxes of "1" and "2" each gain one message with sender "3", the mailbox of "3" is
unchanged, and `nMsgsSent` grows by 2. -/
theorem broadcast_reaches_all_others_witness :
    ((keys [("1", ⟨3, []⟩), ("2", ⟨3, []⟩), ("3", ⟨3, []⟩)]).Nodup ∧
      ["2", "3", "1"].Perm (keys [("1", ⟨3, []⟩), ("2", ⟨3, []⟩), ("3", ⟨3, []⟩)]) ∧
      (⟨"3"⟩ : Actor).id ∈ keys [("1", ⟨3, []⟩), ("2", ⟨3, []⟩), ("3", ⟨3, []⟩)] ∧
      2 ≤ ([("1", ⟨3, []⟩), ("2", ⟨3, []⟩), ("3", ⟨3, []⟩)] : Channels).length ∧
      ∀ e ∈ ([("1", ⟨3, []⟩), ("2", ⟨3, []⟩), ("3", ⟨3, []⟩)] : Channels),
        e.1 ≠ (⟨"3"⟩ : Actor).id → e.2.buf.length < e.2.cap) ∧
    (∃ w' : World,
      send ⟨"3"⟩ "hi" "all" ["2", "3", "1"]
        ⟨[("1", ⟨3, []⟩), ("2", ⟨3, []⟩), ("3", ⟨3, []⟩)], ⟨3, 0, 0⟩⟩ = (w', none) ∧
      (∀ k c, k ≠ (⟨"3"⟩ : Actor).id →
        chanAt [("1", ⟨3, []⟩), ("2", ⟨3, []⟩), ("3", ⟨3, []⟩)] k = some c →
        chanAt w'.channels k = some ⟨c.cap, c.buf ++ [⟨some "hi", (⟨"3"⟩ : Actor).id⟩]⟩) ∧
      chanAt w'.channels (⟨"3"⟩ : Actor).id =
        chanAt [("1", ⟨3, []⟩), ("2", ⟨3, []⟩), ("3", ⟨3, []⟩)] (⟨"3"⟩ : Actor).id ∧
      keys w'.channels = keys [("1", ⟨3, []⟩), ("2", ⟨3, []⟩), ("3", ⟨3, []⟩)] ∧
      w'.shareData.nMsgsSent + 1 =
        (⟨3, 0, 0⟩ : ShareState).nMsgsSent +
          ([("1", ⟨3, []⟩), ("2", ⟨3, []⟩), ("3", ⟨3, []⟩)] : Channels).length ∧
      w'.shareData.nActors = (⟨3, 0, 0⟩ : ShareState).nActors ∧
      w'.shareData.nMsgsProcessed = (⟨3, 0, 0⟩ : ShareState).nMsgsProcessed) ∧
    send ⟨"3"⟩ "hi" "all" ["2", "3", "1"]
        ⟨[("1", ⟨3, []⟩), ("2", ⟨3, []⟩), ("3", ⟨3, []⟩)], ⟨3, 0, 0⟩⟩ =
      (⟨[("1", ⟨3, [⟨some "hi", "3"⟩]⟩), ("2", ⟨3, [⟨some "hi", "3"⟩]⟩), ("3", ⟨3, []⟩)],
        ⟨3, 0, 2⟩⟩, none) :=
  ⟨⟨by decide, by decide, by decide, by decide, by decide⟩,
    broadcast_reaches_all_others ⟨"3"⟩ "hi" ["2", "3", "1"]
      ⟨[("1", ⟨3, []⟩), ("2", ⟨3, []⟩), ("3", ⟨3, []⟩)], ⟨3, 0, 0⟩⟩
      (by decide) (by decide) (by decide) (by decide) (by decide),
    by decide⟩

/-- Instance of C10: capacity 1, the mailbox of "2" is full; actor "3" broadcasts and the
map is visited in the order "1", "2", "3": "1" gains the message, the send to "2" fails,
and `nMsgsSent` grows by one. -/
theorem broadcast_failure_keeps_deliveries_witness :
    ((keys [("1", ⟨1, []⟩), ("2", ⟨1, [⟨some "x", "1"⟩]⟩), ("3", ⟨1, []⟩)]).Nodup ∧
      ["1", "2", "3"].Perm
        (keys [("1", ⟨1, []⟩), ("2", ⟨1, [⟨some "x", "1"⟩]⟩), ("3", ⟨1, []⟩)]) ∧
      send ⟨"3"⟩ "hi" "all" ["1", "2", "3"]
          ⟨[("1", ⟨1, []⟩), ("2", ⟨1, [⟨some "x", "1"⟩]⟩), ("3", ⟨1, []⟩)], ⟨3, 0, 1⟩⟩ =
        (⟨[("1", ⟨1, [⟨some "hi", "3"⟩]⟩), ("2", ⟨1, [⟨some "x", "1"⟩]⟩), ("3", ⟨1, []⟩)],
          ⟨3, 0, 2⟩⟩, some "Channel is full")) ∧
    ∃ visited rest : List String, ["1", "2", "3"] = visited ++ rest ∧
      ((([("1", ⟨1, []⟩), ("2", ⟨1, [⟨some "x", "1"⟩]⟩), ("3", ⟨1, []⟩)] :
          Channels).length ≤ 1 ∧ visited = []) ∨
       (2 ≤ ([("1", ⟨1, []⟩), ("2", ⟨1, [⟨some "x", "1"⟩]⟩), ("3", ⟨1, []⟩)] :
          Channels).length ∧
        ∃ k c rest', rest = k :: rest' ∧ k ≠ (⟨"3"⟩ : Actor).id ∧
          chanAt [("1", ⟨1, []⟩), ("2", ⟨1, [⟨some "x", "1"⟩]⟩), ("3", ⟨1, []⟩)] k = some c ∧
          c.cap ≤ c.buf.length)) ∧
      (∀ k ∈ visited, k ≠ (⟨"3"⟩ : Actor).id → ∃ c,
        chanAt [("1", ⟨1, []⟩), ("2", ⟨1, [⟨some "x", "1"⟩]⟩), ("3", ⟨1, []⟩)] k = some c ∧
        c.buf.length < c.cap ∧
        chanAt [("1", ⟨1, [⟨some "hi", "3"⟩]⟩), ("2", ⟨1, [⟨some "x", "1"⟩]⟩), ("3", ⟨1, []⟩)] k =
          some ⟨c.cap, c.buf ++ [⟨some "hi", (⟨"3"⟩ : Actor).id⟩]⟩) ∧
      (∀ k, ¬ (k ∈ visited ∧ k ≠ (⟨"3"⟩ : Actor).id) →
        chanAt [("1", ⟨1, [⟨some "hi", "3"⟩]⟩), ("2", ⟨1, [⟨some "x", "1"⟩]⟩), ("3", ⟨1, []⟩)] k =
          chanAt [("1", ⟨1, []⟩), ("2", ⟨1, [⟨some "x", "1"⟩]⟩), ("3", ⟨1, []⟩)] k) ∧
      keys [("1", ⟨1, [⟨some "hi", "3"⟩]⟩), ("2", ⟨1, [⟨some "x", "1"⟩]⟩), ("3", ⟨1, []⟩)] =
        keys [("1", ⟨1, []⟩), ("2", ⟨1, [⟨some "x", "1"⟩]⟩), ("3", ⟨1, []⟩)] ∧
      (⟨3, 0, 2⟩ : ShareState).nMsgsSent =
        (⟨3, 0, 1⟩ : ShareState).nMsgsSent +
          ((visited.filter (· ≠ (⟨"3"⟩ : Actor).id)).length : Nat) ∧
      (⟨3, 0, 2⟩ : ShareState).nMsgsSent =
        (⟨3, 0, 1⟩ : ShareState).nMsgsSent +
          (((keys [("1", ⟨1, []⟩), ("2", ⟨1, [⟨some "x", "1"⟩]⟩), ("3", ⟨1, []⟩)]).filter
            (fun k => decide
              (chanAt [("1", ⟨1, [⟨some "hi", "3"⟩]⟩), ("2", ⟨1, [⟨some "x", "1"⟩]⟩),
                  ("3", ⟨1, []⟩)] k ≠
                chanAt [("1", ⟨1, []⟩), ("2", ⟨1, [⟨some "x", "1"⟩]⟩), ("3", ⟨1, []⟩)] k))).length
            : Nat) ∧
      (⟨3, 0, 2⟩ : ShareState).nActors = (⟨3, 0, 1⟩ : ShareState).nActors ∧
      (⟨3, 0, 2⟩ : ShareState).nMsgsProcessed = (⟨3, 0, 1⟩ : ShareState).nMsgsProcessed :=
  ⟨⟨by decide, by decide, by decide⟩,
    broadcast_failure_keeps_deliveries ⟨"3"⟩ "hi" ["1", "2", "3"]
      ⟨[("1", ⟨1, []⟩), ("2", ⟨1, [⟨some "x", "1"⟩]⟩), ("3", ⟨1, []⟩)], ⟨3, 0, 1⟩⟩
      ⟨[("1", ⟨1, [⟨some "hi", "3"⟩]⟩), ("2", ⟨1, [⟨some "x", "1"⟩]⟩), ("3", ⟨1, []⟩)],
        ⟨3, 0, 2⟩⟩
      "Channel is full" (by decide) (by decide) (by decide)⟩

/-! ## Unknown targets and receiving -/

theorem receiveLoop_out_of_fuel (a : Actor) (buf : List Message) :
    ∀ (fuel : Nat) (w : World) (n : Nat) (messages : List Message),
      chanAt w.channels a.id = some ⟨n, buf⟩ → fuel ≤ buf.length →
      receiveLoop a fuel w messages = none := by
  induction buf with
  | nil =>
    intro fuel w n messages _ hfuel
    have h0 : fuel = 0 := by simpa using hfuel
    subst h0
    rfl
  | cons v rest ih =>
    intro fuel w n messages hc hfuel
    cases fuel with
    | zero => rfl
    | succ fuel =>
      simp only [List.length_cons] at hfuel
      simp only [receiveLoop, tryRecvFrom_cons _ _ _ _ _ hc]
      exact ih fuel _ n _ (chanAt_putChan_self _ _ _) (by omega)

/-- C11: in a map with at least two actors, a `send(m, target)` to a target that is
neither "all" nor a key of the map returns (the function is total: no panic, no blocking)
a non-nil error, and leaves the world as it was: no mailbox is created for `target`, and
every mailbox and every counter is unchanged. -/
theorem send_unknown_target_fails (a : Actor) (m target : String) (order : List String)
    (w : World) (hlen : 2 ≤ w.channels.length) (hto : target ≠ "all")
    (hunknown : target ∉ keys w.channels) :
    send a m target order w = (w, some "Channel is full") ∧
    (send a m target order w).2 ≠ none ∧
    chanAt (send a m target order w).1.channels target = none ∧
    keys (send a m target order w).1.channels = keys w.channels := by
  have hnone : chanAt w.channels target = none := (chanAt_eq_none_iff _ _).mpr hunknown
  have h1 : ¬ w.channels.length ≤ 1 := by omega
  have hsend : send a m target order w = (w, some "Channel is full") := by
    simp [send, h1, hto, trySendTo, hnone]
  rw [hsend]
  exact ⟨rfl, by simp, hnone, rfl⟩

/-- Instance of C11: actors "1" and "2"; "1" sends to the unknown id "9". -/
theorem send_unknown_target_fails_witness :
    (2 ≤ ([("1", ⟨3, []⟩), ("2", ⟨3, []⟩)] : Channels).length ∧ "9" ≠ "all" ∧
      "9" ∉ keys [("1", ⟨3, []⟩), ("2", ⟨3, []⟩)]) ∧
    (send ⟨"1"⟩ "x" "9" ["1", "2"] ⟨[("1", ⟨3, []⟩), ("2", ⟨3, []⟩)], ⟨2, 0, 0⟩⟩ =
        (⟨[("1", ⟨3, []⟩), ("2", ⟨3, []⟩)], ⟨2, 0, 0⟩⟩, some "Channel is full") ∧
      (send ⟨"1"⟩ "x" "9" ["1", "2"] ⟨[("1", ⟨3, []⟩), ("2", ⟨3, []⟩)], ⟨2, 0, 0⟩⟩).2 ≠ none ∧
      chanAt (send ⟨"1"⟩ "x" "9" ["1", "2"]
        ⟨[("1", ⟨3, []⟩), ("2", ⟨3, []⟩)], ⟨2, 0, 0⟩⟩).1.channels "9" = none ∧
      keys (send ⟨"1"⟩ "x" "9" ["1", "2"]
        ⟨[("1", ⟨3, []⟩), ("2", ⟨3, []⟩)], ⟨2, 0, 0⟩⟩).1.channels =
        keys [("1", ⟨3, []⟩), ("2", ⟨3, []⟩)]) :=
  ⟨⟨by decide, by decide, by decide⟩,
    send_unknown_target_fails ⟨"1"⟩ "x" "9" ["1", "2"]
      ⟨[("1", ⟨3, []⟩), ("2", ⟨3, []⟩)], ⟨2, 0, 0⟩⟩ (by decide) (by decide) (by decide)⟩

/-- C12: `receiveOnce` on an actor whose mailbox holds `v :: rest` returns `v`, the
oldest message, with a nil error; the mailbox then holds `rest` in the same order with
the same capacity, and `nMsgsProcessed` is one more.  On an actor whose mailbox is empty
it returns the zero `Message{}` with a nil error and leaves the world as it was.  In both
cases every other key is mapped to what it was, the keys are the same, and `nActors` and
`nMsgsSent` are unchanged. -/
theorem receiveOnce_spec (a : Actor) (w : World) (n : Nat) :
    (∀ (v : Message) (rest : List Message),
      chanAt w.channels a.id = some ⟨n, v :: rest⟩ →
      ∃ w' : World,
        receiveOnce a w = (w', v, none) ∧
        chanAt w'.channels a.id = some ⟨n, rest⟩ ∧
        (∀ k, k ≠ a.id → chanAt w'.channels k = chanAt w.channels k) ∧
        keys w'.channels = keys w.channels ∧
        w'.shareData.nMsgsProcessed = w.shareData.nMsgsProcessed + 1 ∧
        w'.shareData.nActors = w.shareData.nActors ∧
        w'.shareData.nMsgsSent = w.shareData.nMsgsSent) ∧
    (chanAt w.channels a.id = some ⟨n, []⟩ →
      receiveOnce a w = (w, Message.zero, none)) := by
  constructor
  · intro v rest hc
    refine ⟨⟨putChan w.channels a.id ⟨n, rest⟩, w.shareData.incrementMsgsProcessed⟩, ?_,
      chanAt_putChan_self _ _ _, fun _ hk => chanAt_putChan_of_ne _ _ _ _ hk,
      keys_putChan_of_some _ _ _ _ hc, rfl, rfl, rfl⟩
    simp [receiveOnce, tryRecvFrom_cons _ _ _ _ _ hc]
  · intro hc
    simp [receiveOnce, tryRecvFrom_nil _ _ _ hc]

/-- Instance of C12: actor "2" holds two messages and receives the older one; actor "1"
holds none and receives the zero message. -/
theorem receiveOnce_spec_witness :
    chanAt [("1", ⟨3, []⟩), ("2", ⟨3, [⟨some "x", "1"⟩, ⟨some "y", "3"⟩]⟩)] "2" =
      some ⟨3, [⟨some "x", "1"⟩, ⟨some "y", "3"⟩]⟩ ∧
    (∃ w' : World,
      receiveOnce ⟨"2"⟩
          ⟨[("1", ⟨3, []⟩), ("2", ⟨3, [⟨some "x", "1"⟩, ⟨some "y", "3"⟩]⟩)], ⟨2, 0, 2⟩⟩ =
        (w', ⟨some "x", "1"⟩, none) ∧
      chanAt w'.channels "2" = some ⟨3, [⟨some "y", "3"⟩]⟩ ∧
      (∀ k, k ≠ "2" → chanAt w'.channels k =
        chanAt [("1", ⟨3, []⟩), ("2", ⟨3, [⟨some "x", "1"⟩, ⟨some "y", "3"⟩]⟩)] k) ∧
      keys w'.channels =
        keys [("1", ⟨3, []⟩), ("2", ⟨3, [⟨some "x", "1"⟩, ⟨some "y", "3"⟩]⟩)] ∧
      w'.shareData.nMsgsProcessed = (⟨2, 0, 2⟩ : ShareState).nMsgsProcessed + 1 ∧
      w'.shareData.nActors = (⟨2, 0, 2⟩ : ShareState).nActors ∧
      w'.shareData.nMsgsSent = (⟨2, 0, 2⟩ : ShareState).nMsgsSent) ∧
    chanAt [("1", ⟨3, []⟩), ("2", ⟨3, [⟨some "x", "1"⟩, ⟨some "y", "3"⟩]⟩)] "1" =
      some ⟨3, []⟩ ∧
    receiveOnce ⟨"1"⟩
        ⟨[("1", ⟨3, []⟩), ("2", ⟨3, [⟨some "x", "1"⟩, ⟨some "y", "3"⟩]⟩)], ⟨2, 0, 2⟩⟩ =
      (⟨[("1", ⟨3, []⟩), ("2", ⟨3, [⟨some "x", "1"⟩, ⟨some "y", "3"⟩]⟩)], ⟨2, 0, 2⟩⟩,
        Message.zero, none) :=
  ⟨by decide,
    (receiveOnce_spec ⟨"2"⟩
      ⟨[("1", ⟨3, []⟩), ("2", ⟨3, [⟨some "x", "1"⟩, ⟨some "y", "3"⟩]⟩)], ⟨2, 0, 2⟩⟩ 3).1
      ⟨some "x", "1"⟩ [⟨some "y", "3"⟩] (by decide),
    by decide,
    (receiveOnce_spec ⟨"1"⟩
      ⟨[("1", ⟨3, []⟩), ("2", ⟨3, [⟨some "x", "1"⟩, ⟨some "y", "3"⟩]⟩)], ⟨2, 0, 2⟩⟩ 3).2
      (by decide)⟩

/-- C13: when the mailbox of the actor holds the `n` messages `c.buf` (`n` may be 0),
`receiveMany` returns: the loop body runs exactly `n + 1` times, `n` times through the
receive case and once through `default` (fuel `n + 1` is enough, fuel `n` is not).  It
returns, with a nil error, the `n` messages in mailbox order; the mailbox is then empty
with the same capacity, `nMsgsProcessed` has grown by exactly `n`, every other key is
mapped to what it was, the keys are the same, and `nActors` and `nMsgsSent` are
unchanged. -/
theorem receiveMany_drains (a : Actor) (w : World) (c : Chan)
    (hc : chanAt w.channels a.id = some c) :
    (∀ fuel, fuel ≤ c.buf.length → receiveMany fuel a w = none) ∧
    ∃ w' : World,
      (∀ fuel, c.buf.length < fuel → receiveMany fuel a w = some (w', c.buf, none)) ∧
      chanAt w'.channels a.id = some ⟨c.cap, []⟩ ∧
      (∀ k, k ≠ a.id → chanAt w'.channels k = chanAt w.channels k) ∧
      keys w'.channels = keys w.channels ∧
      w'.shareData.nMsgsProcessed = w.shareData.nMsgsProcessed + c.buf.length ∧
      w'.shareData.nActors = w.shareData.nActors ∧
      w'.shareData.nMsgsSent = w.shareData.nMsgsSent := by
  obtain ⟨n, buf⟩ := c
  refine ⟨fun fuel hfuel => receiveLoop_out_of_fuel a buf fuel w n [] hc hfuel,
    ⟨putChan w.channels a.id ⟨n, []⟩,
      { w.shareData with nMsgsProcessed := w.shareData.nMsgsProcessed + buf.length }⟩,
    ?_, chanAt_putChan_self _ _ _, fun _ hk => chanAt_putChan_of_ne _ _ _ _ hk,
    keys_putChan_of_some _ _ _ _ hc, rfl, rfl, rfl⟩
  intro fuel hfuel
  have := receiveLoop_drains a buf fuel w n [] hc hfuel
  simpa [receiveMany] using this

/-- Instance of C13: actor "2" holds two messages; fuel 2 is used up, fuel 3 drains. -/
theorem receiveMany_drains_witness :
    chanAt [("1", ⟨3, []⟩), ("2", ⟨3, [⟨some "x", "1"⟩, ⟨some "y", "3"⟩]⟩)] "2" =
      some ⟨3, [⟨some "x", "1"⟩, ⟨some "y", "3"⟩]⟩ ∧
    ((∀ fuel, fuel ≤ (⟨3, [⟨some "x", "1"⟩, ⟨some "y", "3"⟩]⟩ : Chan).buf.length →
      receiveMany fuel ⟨"2"⟩
        ⟨[("1", ⟨3, []⟩), ("2", ⟨3, [⟨some "x", "1"⟩, ⟨some "y", "3"⟩]⟩)], ⟨2, 0, 2⟩⟩ = none) ∧
    ∃ w' : World,
      (∀ fuel, (⟨3, [⟨some "x", "1"⟩, ⟨some "y", "3"⟩]⟩ : Chan).buf.length < fuel →
        receiveMany fuel ⟨"2"⟩
          ⟨[("1", ⟨3, []⟩), ("2", ⟨3, [⟨some "x", "1"⟩, ⟨some "y", "3"⟩]⟩)], ⟨2, 0, 2⟩⟩ =
        some (w', (⟨3, [⟨some "x", "1"⟩, ⟨some "y", "3"⟩]⟩ : Chan).buf, none)) ∧
      chanAt w'.channels "2" = some ⟨3, []⟩ ∧
      (∀ k, k ≠ "2" → chanAt w'.channels k =
        chanAt [("1", ⟨3, []⟩), ("2", ⟨3, [⟨some "x", "1"⟩, ⟨some "y", "3"⟩]⟩)] k) ∧
      keys w'.channels =
        keys [("1", ⟨3, []⟩), ("2", ⟨3, [⟨some "x", "1"⟩, ⟨some "y", "3"⟩]⟩)] ∧
      w'.shareData.nMsgsProcessed =
        (⟨2, 0, 2⟩ : ShareState).nMsgsProcessed +
          (⟨3, [⟨some "x", "1"⟩, ⟨some "y", "3"⟩]⟩ : Chan).buf.length ∧
      w'.shareData.nActors = (⟨2, 0, 2⟩ : ShareState).nActors ∧
      w'.shareData.nMsgsSent = (⟨2, 0, 2⟩ : ShareState).nMsgsSent) ∧
    receiveMany 3 ⟨"2"⟩
        ⟨[("1", ⟨3, []⟩), ("2", ⟨3, [⟨some "x", "1"⟩, ⟨some "y", "3"⟩]⟩)], ⟨2, 0, 2⟩⟩ =
      some (⟨[("1", ⟨3, []⟩), ("2", ⟨3, []⟩)], ⟨2, 2, 2⟩⟩,
        [⟨some "x", "1"⟩, ⟨some "y", "3"⟩], none) :=
  ⟨by decide,
    receiveMany_drains ⟨"2"⟩
      ⟨[("1", ⟨3, []⟩), ("2", ⟨3, [⟨some "x", "1"⟩, ⟨some "y", "3"⟩]⟩)], ⟨2, 0, 2⟩⟩
      ⟨3, [⟨some "x", "1"⟩, ⟨some "y", "3"⟩]⟩ (by decide),
    by decide⟩

/-! ## Every call is a sequence of elementary changes -/

theorem new_steps (capOk : Int → Prop) (chanLimit : Nat) (id : String)
    (channels : Channels) (channelCap : Int) (sharedData : ShareState)
    (r : Option Actor × Option String) (w' : World) (hok : capOk channelCap)
    (h : new chanLimit id channels channelCap sharedData = .returned r w') :
    Relation.ReflTransGen (Prim capOk) ⟨channels, sharedData⟩ w' := by
  unfold new at h
  by_cases hall : id = "all"
  · rw [if_pos hall] at h
    injection h with _ hw
    rw [← hw]
  · rw [if_neg hall] at h
    by_cases hex : (chanAt channels id).isSome
    · rw [if_pos hex] at h
      injection h with _ hw
      rw [← hw]
    · rw [if_neg hex] at h
      by_cases hrefused : channelCap < 0 ∨ chanSizeBound ≤ channelCap ∨
          (chanLimit : Int) < channelCap
      · rw [if_pos hrefused] at h
        exact Outcome.noConfusion h
      · rw [if_neg hrefused] at h
        injection h with _ hw
        rw [← hw]
        have hnone : chanAt channels id = none := by
          cases hc : chanAt channels id with
          | none => rfl
          | some c => simp [hc] at hex
        have hcap : 0 ≤ channelCap := by
          by_contra hneg
          exact hrefused (Or.inl (not_le.mp hneg))
        exact Relation.ReflTransGen.single
          (Prim.register ⟨channels, sharedData⟩ id channelCap hnone hcap hok)

theorem trySendTo_prim (capOk : Int → Prop) (w : World) (channels' : Channels) (k : String)
    (v : Message) (h : trySendTo w.channels k v = some channels') :
    Prim capOk w ⟨channels', w.shareData.incrementMsgsSent⟩ := by
  obtain ⟨c, hc, hroom, hch⟩ := trySendTo_eq_some _ _ _ _ h
  rw [hch]
  exact Prim.enqueue w k c v hc hroom

theorem sendAll_steps (capOk : Int → Prop) (a : Actor) (m : String) (order : List String) :
    ∀ w : World, Relation.ReflTransGen (Prim capOk) w (sendAll a m order w).1 := by
  induction order with
  | nil => intro w; exact Relation.ReflTransGen.refl
  | cons k ks ih =>
    intro w
    by_cases hself : k = a.id
    · have hstep : sendAll a m (k :: ks) w = sendAll a m ks w := by
        simp [sendAll, hself]
      rw [hstep]
      exact ih w
    · cases hsend : trySendTo w.channels k ⟨some m, a.id⟩ with
      | none =>
        have hstep : sendAll a m (k :: ks) w = (w, some "Channel is full") := by
          simp [sendAll, hself, hsend]
        rw [hstep]
      | some channels' =>
        have hstep : sendAll a m (k :: ks) w =
            sendAll a m ks ⟨channels', w.shareData.incrementMsgsSent⟩ := by
          simp [sendAll, hself, hsend]
        rw [hstep]
        exact Relation.ReflTransGen.head (trySendTo_prim capOk w channels' k _ hsend) (ih _)

theorem send_steps (capOk : Int → Prop) (a : Actor) (m target : String)
    (order : List String) (w : World) :
    Relation.ReflTransGen (Prim capOk) w (send a m target order w).1 := by
  unfold send
  by_cases hlen : w.channels.length ≤ 1
  · rw [if_pos hlen]
  · rw [if_neg hlen]
    by_cases hto : target = "all"
    · rw [if_pos hto]
      exact sendAll_steps capOk a m order w
    · rw [if_neg hto]
      cases hsend : trySendTo w.channels target ⟨some m, a.id⟩ with
      | none => exact Relation.ReflTransGen.refl
      | some channels' =>
        exact Relation.ReflTransGen.single (trySendTo_prim capOk w channels' target _ hsend)

theorem tryRecvFrom_prim (capOk : Int → Prop) (w : World) (channels' : Channels) (k : String)
    (v : Message) (h : tryRecvFrom w.channels k = some (v, channels')) :
    Prim capOk w ⟨channels', w.shareData.incrementMsgsProcessed⟩ := by
  unfold tryRecvFrom at h
  cases hc : chanAt w.channels k with
  | none => simp [hc] at h
  | some c =>
    obtain ⟨n, buf⟩ := c
    cases buf with
    | nil => simp [hc, Chan.tryRecv] at h
    | cons v' rest =>
      simp only [hc, Chan.tryRecv, Option.some.injEq, Prod.mk.injEq] at h
      rw [← h.2]
      exact Prim.dequeue w k n v' rest hc

theorem receiveOnce_steps (capOk : Int → Prop) (a : Actor) (w : World) :
    Relation.ReflTransGen (Prim capOk) w (receiveOnce a w).1 := by
  unfold receiveOnce
  cases hrecv : tryRecvFrom w.channels a.id with
  | none => exact Relation.ReflTransGen.refl
  | some r =>
    obtain ⟨v, channels'⟩ := r
    exact Relation.ReflTransGen.single (tryRecvFrom_prim capOk w channels' a.id v hrecv)

theorem receiveLoop_steps (capOk : Int → Prop) (a : Actor) (fuel : Nat) :
    ∀ (w : World) (messages : List Message) (r : World × List Message × Option String),
      receiveLoop a fuel w messages = some r →
      Relation.ReflTransGen (Prim capOk) w r.1 := by
  induction fuel with
  | zero => intro w messages r h; simp [receiveLoop] at h
  | succ fuel ih =>
    intro w messages r h
    unfold receiveLoop at h
    cases hrecv : tryRecvFrom w.channels a.id with
    | none =>
      simp only [hrecv, Option.some.injEq] at h
      rw [← h]
    | some p =>
      obtain ⟨v, channels'⟩ := p
      simp only [hrecv] at h
      exact Relation.ReflTransGen.head (tryRecvFrom_prim capOk w channels' a.id v hrecv)
        (ih _ _ r h)

theorem start_steps (capOk : Int → Prop) (fuel : Nat) (actors : List Actor) :
    ∀ w w' : World, start fuel actors w = some w' →
      Relation.ReflTransGen (Prim capOk) w w' := by
  induction actors with
  | nil =>
    intro w w' h
    simp only [start, Option.some.injEq] at h
    rw [← h]
  | cons a rest ih =>
    intro w w' h
    unfold start at h
    cases hdrain : receiveMany fuel a w with
    | none => simp [hdrain] at h
    | some r =>
      obtain ⟨w1, msgs, e⟩ := r
      simp only [hdrain] at h
      exact Relation.ReflTransGen.trans
        (receiveLoop_steps capOk a fuel w [] (w1, msgs, e) hdrain) (ih w1 w' h)

theorem run_steps (capOk : Int → Prop) (chanLimit : Nat) (op : Op) (w w' : World)
    (hok : ∀ id channelCap, op = .new id channelCap → capOk channelCap)
    (h : op.run chanLimit w = some w') : Relation.ReflTransGen (Prim capOk) w w' := by
  cases op with
  | new id channelCap =>
    simp only [Op.run] at h
    cases hnew : new chanLimit id w.channels channelCap w.shareData with
    | panicked why => simp [hnew] at h
    | returned r w1 =>
      simp only [hnew, Option.some.injEq] at h
      rw [← h]
      exact new_steps capOk chanLimit id w.channels channelCap w.shareData r w1
        (hok id channelCap rfl) hnew
  | send a m target order =>
    simp only [Op.run, Option.some.injEq] at h
    rw [← h]
    exact send_steps capOk a m target order w
  | receiveOnce a =>
    simp only [Op.run, Option.some.injEq] at h
    rw [← h]
    exact receiveOnce_steps capOk a w
  | receiveMany fuel a =>
    simp only [Op.run] at h
    cases hdrain : receiveMany fuel a w with
    | none => simp [hdrain] at h
    | some r =>
      obtain ⟨w1, msgs, e⟩ := r
      simp only [hdrain, Option.some.injEq] at h
      rw [← h]
      exact receiveLoop_steps capOk a fuel w [] (w1, msgs, e) hdrain
  | start fuel actors =>
    exact start_steps capOk fuel actors w w' h

theorem runOps_steps (capOk : Int → Prop) (chanLimit : Nat) (ops : List Op) :
    ∀ w w' : World, (∀ id channelCap, Op.new id channelCap ∈ ops → capOk channelCap) →
      runOps chanLimit ops w = some w' → Relation.ReflTransGen (Prim capOk) w w' := by
  induction ops with
  | nil =>
    intro w w' _ h
    simp only [runOps, Option.some.injEq] at h
    rw [← h]
  | cons op rest ih =>
    intro w w' hok h
    unfold runOps at h
    cases hrun : op.run chanLimit w with
    | none => simp [hrun] at h
    | some w1 =>
      simp only [hrun] at h
      exact Relation.ReflTransGen.trans
        (run_steps capOk chanLimit op w w1 (fun id c hop => hok id c (by simp [hop])) hrun)
        (ih w1 w' (fun id c hmem => hok id c (by simp [hmem])) h)

/-! ## What the elementary changes preserve -/

theorem totalPending_putChan_of_some (channels : Channels) (k : String) (c c' : Chan)
    (h : chanAt channels k = some c) :
    totalPending (putChan channels k c') + c.buf.length =
      totalPending channels + c'.buf.length := by
  induction channels with
  | nil => simp [chanAt] at h
  | cons e rest ih =>
    obtain ⟨k', c0⟩ := e
    by_cases hk : k' = k
    · simp only [chanAt, hk, if_true, Option.some.injEq] at h
      subst h
      simp only [putChan, hk, if_true, totalPending, List.map_cons, List.sum_cons]
      omega
    · simp only [chanAt, hk, if_false] at h
      have := ih h
      simp only [totalPending] at this
      simp only [putChan, hk, if_false, totalPending, List.map_cons, List.sum_cons]
      omega

theorem totalPending_putChan_of_none (channels : Channels) (k : String) (c' : Chan)
    (h : chanAt channels k = none) :
    totalPending (putChan channels k c') = totalPending channels + c'.buf.length := by
  rw [putChan_of_none _ _ _ h]
  simp [totalPending]

theorem mem_putChan (channels : Channels) (k : String) (c : Chan) (e : String × Chan)
    (h : e ∈ putChan channels k c) : e ∈ channels ∨ e = (k, c) := by
  induction channels with
  | nil =>
    simp only [putChan, List.mem_singleton] at h
    exact Or.inr h
  | cons e0 rest ih =>
    obtain ⟨k', c0⟩ := e0
    by_cases hk : k' = k
    · simp only [putChan, hk, if_true, List.mem_cons] at h
      rcases h with h | h
      · exact Or.inr h
      · exact Or.inl (List.mem_cons_of_mem _ h)
    · simp only [putChan, hk, if_false, List.mem_cons] at h
      rcases h with h | h
      · exact Or.inl (by simp [h])
      · rcases ih h with h' | h'
        · exact Or.inl (List.mem_cons_of_mem _ h')
        · exact Or.inr h'

theorem prim_quiescent (capOk : Int → Prop) (w w' : World) (h : Prim capOk w w')
    (hq : w.shareData.nMsgsSent = w.shareData.nMsgsProcessed + totalPending w.channels) :
    w'.shareData.nMsgsSent = w'.shareData.nMsgsProcessed + totalPending w'.channels := by
  cases h with
  | register id channelCap hnone _ _ =>
    have := totalPending_putChan_of_none w.channels id ⟨channelCap.toNat, []⟩ hnone
    simp only [this]
    simpa using hq
  | enqueue k c v hc _ =>
    have := totalPending_putChan_of_some w.channels k c ⟨c.cap, c.buf ++ [v]⟩ hc
    simp only [List.length_append, List.length_singleton] at this
    simp only [ShareState.incrementMsgsSent]
    omega
  | dequeue k n v rest hc =>
    have := totalPending_putChan_of_some w.channels k ⟨n, v :: rest⟩ ⟨n, rest⟩ hc
    simp only [List.length_cons] at this
    simp only [ShareState.incrementMsgsProcessed]
    omega

theorem steps_quiescent (capOk : Int → Prop) (w w' : World)
    (h : Relation.ReflTransGen (Prim capOk) w w')
    (hq : w.shareData.nMsgsSent = w.shareData.nMsgsProcessed + totalPending w.channels) :
    w'.shareData.nMsgsSent = w'.shareData.nMsgsProcessed + totalPending w'.channels := by
  induction h with
  | refl => exact hq
  | tail _ hstep ih => exact prim_quiescent capOk _ _ hstep ih

theorem prim_counters_le (capOk : Int → Prop) (w w' : World) (h : Prim capOk w w') :
    w.shareData.nActors ≤ w'.shareData.nActors ∧
    w.shareData.nMsgsSent ≤ w'.shareData.nMsgsSent ∧
    w.shareData.nMsgsProcessed ≤ w'.shareData.nMsgsProcessed := by
  cases h with
  | register id channelCap _ _ _ => simp
  | enqueue k c v _ _ => simp [ShareState.incrementMsgsSent]
  | dequeue k n v rest _ => simp [ShareState.incrementMsgsProcessed]

theorem steps_counters_le (capOk : Int → Prop) (w w' : World)
    (h : Relation.ReflTransGen (Prim capOk) w w') :
    w.shareData.nActors ≤ w'.shareData.nActors ∧
    w.shareData.nMsgsSent ≤ w'.shareData.nMsgsSent ∧
    w.shareData.nMsgsProcessed ≤ w'.shareData.nMsgsProcessed := by
  induction h with
  | refl => exact ⟨le_refl _, le_refl _, le_refl _⟩
  | tail _ hstep ih =>
    have := prim_counters_le capOk _ _ hstep
    exact ⟨le_trans ih.1 this.1, le_trans ih.2.1 this.2.1, le_trans ih.2.2 this.2.2⟩

theorem prim_bounded (capOk : Int → Prop) (w w' : World) (h : Prim capOk w w')
    (hb : ∀ e ∈ w.channels, e.2.buf.length ≤ e.2.cap) :
    ∀ e ∈ w'.channels, e.2.buf.length ≤ e.2.cap := by
  cases h with
  | register id channelCap _ _ _ =>
    intro e he
    rcases mem_putChan _ _ _ _ he with h | h
    · exact hb e h
    · subst h; simp
  | enqueue k c v _ hroom =>
    intro e he
    rcases mem_putChan _ _ _ _ he with h | h
    · exact hb e h
    · subst h
      simp only [List.length_append, List.length_singleton]
      omega
  | dequeue k n v rest hc =>
    intro e he
    rcases mem_putChan _ _ _ _ he with h | h
    · exact hb e h
    · subst h
      have := hb _ (chanAt_some_mem _ _ _ hc)
      simp only [List.length_cons] at this
      simp only
      omega

theorem steps_bounded (capOk : Int → Prop) (w w' : World)
    (h : Relation.ReflTransGen (Prim capOk) w w')
    (hb : ∀ e ∈ w.channels, e.2.buf.length ≤ e.2.cap) :
    ∀ e ∈ w'.channels, e.2.buf.length ≤ e.2.cap := by
  induction h with
  | refl => exact hb
  | tail _ hstep ih => exact prim_bounded capOk _ _ hstep ih

theorem prim_caps (capOk : Int → Prop) (w w' : World) (h : Prim capOk w w')
    (hc : ∀ e ∈ w.channels, capOk (e.2.cap : Int)) :
    ∀ e ∈ w'.channels, capOk (e.2.cap : Int) := by
  cases h with
  | register id channelCap _ hcap hok =>
    intro e he
    rcases mem_putChan _ _ _ _ he with h | h
    · exact hc e h
    · subst h
      simpa [Int.toNat_of_nonneg hcap] using hok
  | enqueue k c v hk _ =>
    intro e he
    rcases mem_putChan _ _ _ _ he with h | h
    · exact hc e h
    · subst h
      exact hc (k, c) (chanAt_some_mem _ _ _ hk)
  | dequeue k n v rest hk =>
    intro e he
    rcases mem_putChan _ _ _ _ he with h | h
    · exact hc e h
    · subst h
      exact hc (k, ⟨n, v :: rest⟩) (chanAt_some_mem _ _ _ hk)

theorem steps_caps (capOk : Int → Prop) (w w' : World)
    (h : Relation.ReflTransGen (Prim capOk) w w')
    (hc : ∀ e ∈ w.channels, capOk (e.2.cap : Int)) :
    ∀ e ∈ w'.channels, capOk (e.2.cap : Int) := by
  induction h with
  | refl => exact hc
  | tail _ hstep ih => exact prim_caps capOk _ _ hstep ih

theorem prim_cap_fixed (capOk : Int → Prop) (w w' : World) (h : Prim capOk w w')
    (j : String) (c0 : Chan) (hj : chanAt w.channels j = some c0) :
    ∃ c1, chanAt w'.channels j = some c1 ∧ c1.cap = c0.cap := by
  cases h with
  | register id channelCap hnone _ _ =>
    have hne : j ≠ id := by
      intro h
      rw [h, hnone] at hj
      exact Option.noConfusion hj
    exact ⟨c0, by simpa [chanAt_putChan_of_ne _ _ _ _ hne] using hj, rfl⟩
  | enqueue k c v hk _ =>
    by_cases hjk : j = k
    · subst hjk
      rw [hk] at hj
      cases hj
      exact ⟨_, chanAt_putChan_self _ _ _, rfl⟩
    · exact ⟨c0, by simpa [chanAt_putChan_of_ne _ _ _ _ hjk] using hj, rfl⟩
  | dequeue k n v rest hk =>
    by_cases hjk : j = k
    · subst hjk
      rw [hk] at hj
      cases hj
      exact ⟨_, chanAt_putChan_self _ _ _, rfl⟩
    · exact ⟨c0, by simpa [chanAt_putChan_of_ne _ _ _ _ hjk] using hj, rfl⟩

theorem steps_cap_fixed (capOk : Int → Prop) (w w' : World)
    (h : Relation.ReflTransGen (Prim capOk) w w') (j : String) (c0 : Chan)
    (hj : chanAt w.channels j = some c0) :
    ∃ c1, chanAt w'.channels j = some c1 ∧ c1.cap = c0.cap := by
  induction h with
  | refl => exact ⟨c0, hj, rfl⟩
  | tail _ hstep ih =>
    obtain ⟨c1, hc1, hcap1⟩ := ih
    obtain ⟨c2, hc2, hcap2⟩ := prim_cap_fixed capOk _ _ hstep j c1 hc1
    exact ⟨c2, hc2, hcap2.trans hcap1⟩

/-! ## Invariants of the reachable states -/

/-- C16, as stated, fails: `new` takes the capacity as an argument of each call, so two
registrations with capacities 1 and 2, followed by a send and a receive, leave a map whose
two mailboxes have different capacities. -/
theorem capacities_can_differ :
    runOps 8 [.new "1" 1, .new "2" 2, .send ⟨"1"⟩ "x" "2" ["1", "2"], .receiveOnce ⟨"2"⟩]
        World.init =
      some ⟨[("1", ⟨1, []⟩), ("2", ⟨2, []⟩)], ⟨2, 1, 1⟩⟩ ∧
    ¬ ∀ e1 ∈ ([("1", ⟨1, []⟩), ("2", ⟨2, []⟩)] : Channels),
        ∀ e2 ∈ ([("1", ⟨1, []⟩), ("2", ⟨2, []⟩)] : Channels), e1.2.cap = e2.2.cap := by
  refine ⟨by decide, by decide⟩

/-- C16, amended: in every state reached from an empty map by calls of `new` that all
pass the same capacity `c`, and any sends, receives and drains, every mailbox of the map
has capacity `c`; and no later call changes the capacity of a mailbox that exists. -/
theorem same_capacity_invariant (chanLimit : Nat) (ops : List Op) (c : Int) (w : World)
    (hsame : ∀ id channelCap, Op.new id channelCap ∈ ops → channelCap = c)
    (hreach : runOps chanLimit ops World.init = some w) :
    (∀ e ∈ w.channels, (e.2.cap : Int) = c) ∧
    ∀ (ops' : List Op) (w2 : World) (k : String) (c0 : Chan),
      runOps chanLimit ops' w = some w2 → chanAt w.channels k = some c0 →
      ∃ c1, chanAt w2.channels k = some c1 ∧ c1.cap = c0.cap := by
  constructor
  · exact steps_caps (fun x => x = c) _ _
      (runOps_steps (fun x => x = c) chanLimit ops World.init w hsame hreach)
      (by simp [World.init])
  · intro ops' w2 k c0 hrun hk
    exact steps_cap_fixed (fun _ => True) _ _
      (runOps_steps (fun _ => True) chanLimit ops' w w2 (fun _ _ _ => trivial) hrun) k c0 hk

/-- Instance of C16, amended: the run of calls used for C14, where every registration
passes capacity 3. -/
theorem same_capacity_invariant_witness :
    ((∀ id channelCap,
        Op.new id channelCap ∈
          ([.new "1" 3, .new "2" 3, .new "3" 3, .send ⟨"1"⟩ "x" "2" ["1", "2", "3"],
        .send ⟨"3"⟩ "hi" "all" ["2", "3", "1"], .receiveOnce ⟨"2"⟩, .new "all" 3,
        .send ⟨"1"⟩ "z" "9" ["3", "2", "1"]] : List Op) →
        channelCap = 3) ∧
      runOps 8
        [.new "1" 3, .new "2" 3, .new "3" 3, .send ⟨"1"⟩ "x" "2" ["1", "2", "3"],
        .send ⟨"3"⟩ "hi" "all" ["2", "3", "1"], .receiveOnce ⟨"2"⟩, .new "all" 3,
        .send ⟨"1"⟩ "z" "9" ["3", "2", "1"]]
        World.init =
      some ⟨[("1", ⟨3, [⟨some "hi", "3"⟩]⟩), ("2", ⟨3, [⟨some "hi", "3"⟩]⟩), ("3", ⟨3, []⟩)],
        ⟨3, 1, 3⟩⟩) ∧
    ((∀ e ∈ ([("1", ⟨3, [⟨some "hi", "3"⟩]⟩), ("2", ⟨3, [⟨some "hi", "3"⟩]⟩), ("3", ⟨3, []⟩)] :
          Channels), (e.2.cap : Int) = 3) ∧
    ∀ (ops' : List Op) (w2 : World) (k : String) (c0 : Chan),
      runOps 8 ops'
        ⟨[("1", ⟨3, [⟨some "hi", "3"⟩]⟩), ("2", ⟨3, [⟨some "hi", "3"⟩]⟩), ("3", ⟨3, []⟩)],
        ⟨3, 1, 3⟩⟩ = some w2 →
      chanAt [("1", ⟨3, [⟨some "hi", "3"⟩]⟩), ("2", ⟨3, [⟨some "hi", "3"⟩]⟩), ("3", ⟨3, []⟩)] k =
        some c0 →
      ∃ c1, chanAt w2.channels k = some c1 ∧ c1.cap = c0.cap) :=
  ⟨⟨by intro id channelCap h; simp at h; rcases h with h | h | h | h <;> exact h.2,
      by decide⟩,
    same_capacity_invariant 8
      [.new "1" 3, .new "2" 3, .new "3" 3, .send ⟨"1"⟩ "x" "2" ["1", "2", "3"],
        .send ⟨"3"⟩ "hi" "all" ["2", "3", "1"], .receiveOnce ⟨"2"⟩, .new "all" 3,
        .send ⟨"1"⟩ "z" "9" ["3", "2", "1"]]
      3
      ⟨[("1", ⟨3, [⟨some "hi", "3"⟩]⟩), ("2", ⟨3, [⟨some "hi", "3"⟩]⟩), ("3", ⟨3, []⟩)],
        ⟨3, 1, 3⟩⟩
      (by intro id channelCap h; simp at h; rcases h with h | h | h | h <;> exact h.2)
      (by decide)⟩

/-- C20: in every state reached from an empty map by any sequence of calls of `new`,
`send`, `receiveOnce`, `receiveMany` and `start`, every mailbox holds at most as many
messages as its capacity; a further `send` of any kind leaves it so; and in every state
reached later, a mailbox that exists now has the capacity it has now and holds at most
that many messages. -/
theorem mailboxes_stay_bounded (chanLimit : Nat) (ops : List Op) (w : World)
    (hreach : runOps chanLimit ops World.init = some w) :
    (∀ e ∈ w.channels, e.2.buf.length ≤ e.2.cap) ∧
    (∀ (a : Actor) (m target : String) (order : List String),
      ∀ e ∈ (send a m target order w).1.channels, e.2.buf.length ≤ e.2.cap) ∧
    ∀ (ops' : List Op) (w2 : World) (k : String) (c0 : Chan),
      runOps chanLimit ops' w = some w2 → chanAt w.channels k = some c0 →
      ∃ c1, chanAt w2.channels k = some c1 ∧ c1.cap = c0.cap ∧ c1.buf.length ≤ c0.cap := by
  have hb : ∀ e ∈ w.channels, e.2.buf.length ≤ e.2.cap :=
    steps_bounded (fun _ => True) _ _
      (runOps_steps (fun _ => True) chanLimit ops World.init w (fun _ _ _ => trivial) hreach)
      (by simp [World.init])
  refine ⟨hb, ?_, ?_⟩
  · intro a m target order
    exact steps_bounded (fun _ => True) _ _ (send_steps _ a m target order w) hb
  · intro ops' w2 k c0 hrun hk
    have hsteps := runOps_steps (fun _ => True) chanLimit ops' w w2 (fun _ _ _ => trivial) hrun
    obtain ⟨c1, hc1, hcap⟩ := steps_cap_fixed _ _ _ hsteps k c0 hk
    have := steps_bounded _ _ _ hsteps hb (k, c1) (chanAt_some_mem _ _ _ hc1)
    exact ⟨c1, hc1, hcap, by simpa [hcap] using this⟩

/-- Instance of C20: capacity 1; after two registrations and a send, a second send and a
broadcast are refused and the mailbox of "2" still holds one message. -/
theorem mailboxes_stay_bounded_witness :
    runOps 8 [.new "1" 1, .new "2" 1, .send ⟨"1"⟩ "x" "2" ["1", "2"],
        .send ⟨"1"⟩ "y" "2" ["1", "2"], .send ⟨"1"⟩ "z" "all" ["2", "1"]] World.init =
      some ⟨[("1", ⟨1, []⟩), ("2", ⟨1, [⟨some "x", "1"⟩]⟩)], ⟨2, 0, 1⟩⟩ ∧
    ((∀ e ∈ ([("1", ⟨1, []⟩), ("2", ⟨1, [⟨some "x", "1"⟩]⟩)] : Channels),
        e.2.buf.length ≤ e.2.cap) ∧
    (∀ (a : Actor) (m target : String) (order : List String),
      ∀ e ∈ (send a m target order
          ⟨[("1", ⟨1, []⟩), ("2", ⟨1, [⟨some "x", "1"⟩]⟩)], ⟨2, 0, 1⟩⟩).1.channels,
        e.2.buf.length ≤ e.2.cap) ∧
    ∀ (ops' : List Op) (w2 : World) (k : String) (c0 : Chan),
      runOps 8 ops' ⟨[("1", ⟨1, []⟩), ("2", ⟨1, [⟨some "x", "1"⟩]⟩)], ⟨2, 0, 1⟩⟩ = some w2 →
      chanAt [("1", ⟨1, []⟩), ("2", ⟨1, [⟨some "x", "1"⟩]⟩)] k = some c0 →
      ∃ c1, chanAt w2.channels k = some c1 ∧ c1.cap = c0.cap ∧ c1.buf.length ≤ c0.cap) :=
  ⟨by decide,
    mailboxes_stay_bounded 8
      [.new "1" 1, .new "2" 1, .send ⟨"1"⟩ "x" "2" ["1", "2"],
        .send ⟨"1"⟩ "y" "2" ["1", "2"], .send ⟨"1"⟩ "z" "all" ["2", "1"]]
      ⟨[("1", ⟨1, []⟩), ("2", ⟨1, [⟨some "x", "1"⟩]⟩)], ⟨2, 0, 1⟩⟩ (by decide)⟩

/-! ## The error of a broadcast -/

theorem chanAt_of_mem (channels : Channels) (k : String) (c : Chan)
    (hwf : (keys channels).Nodup) (h : (k, c) ∈ channels) : chanAt channels k = some c := by
  induction channels with
  | nil => simp at h
  | cons e rest ih =>
    obtain ⟨k', c'⟩ := e
    have hnd : k' ∉ keys rest ∧ (keys rest).Nodup := List.nodup_cons.mp hwf
    by_cases hk : k' = k
    · subst hk
      rcases List.mem_cons.mp h with h | h
      · cases h
        simp [chanAt]
      · exact absurd (List.mem_map.mpr ⟨(k', c), h, rfl⟩ : k' ∈ keys rest) hnd.1
    · rcases List.mem_cons.mp h with h | h
      · cases h
        exact absurd rfl hk
      · simp only [chanAt, hk, if_false]
        exact ih hnd.2 h

/-- The error returned by the broadcast loop over an iteration order of the map. -/
theorem sendAll_error (a : Actor) (m : String) (order : List String) (w : World)
    (hwf : (keys w.channels).Nodup) (horder : order.Perm (keys w.channels)) :
    ((∃ e ∈ w.channels, e.1 ≠ a.id ∧ e.2.cap ≤ e.2.buf.length) →
      (sendAll a m order w).2 = some "Channel is full") ∧
    ((¬ ∃ e ∈ w.channels, e.1 ≠ a.id ∧ e.2.cap ≤ e.2.buf.length) →
      (sendAll a m order w).2 = none) := by
  have hnd : order.Nodup := horder.nodup_iff.mpr hwf
  obtain ⟨visited, rest, hsplit, _, hgain, _, _, hend⟩ := sendAll_spec a m order w hnd
  constructor
  · rintro ⟨e, he, hne, hfull⟩
    rcases hend with ⟨_, hrest⟩ | ⟨herr, _⟩
    · exfalso
      subst hrest
      simp only [List.append_nil] at hsplit
      have hmem : e.1 ∈ visited := by
        rw [← hsplit]
        exact horder.mem_iff.mpr (List.mem_map.mpr ⟨e, he, rfl⟩)
      obtain ⟨c, hc, hroom, _⟩ := hgain e.1 hmem hne
      rw [chanAt_of_mem w.channels e.1 e.2 hwf he] at hc
      cases hc
      omega
    · exact herr
  · intro hno
    rcases hend with ⟨hnone, _⟩ | ⟨_, k, rest', hrest, hne, hfull⟩
    · exact hnone
    · exfalso
      have hmem : k ∈ keys w.channels := by
        apply horder.mem_iff.mp
        rw [hsplit, hrest]
        simp
      obtain ⟨c, hc⟩ := exists_chanAt_of_mem_keys _ _ hmem
      exact hno ⟨(k, c), chanAt_some_mem _ _ _ hc, hne, hfull c hc⟩

/-- C19: take a map without duplicate keys holding at least two actors.  For every
iteration order of the map, `send(m, "all")` returns an error if and only if some key
other than the sender's id has a mailbox that already holds as many messages as its
capacity; so the returned error is the same for any two iteration orders. -/
theorem broadcast_error_iff_full (a : Actor) (m : String) (order order' : List String)
    (w : World) (hwf : (keys w.channels).Nodup) (horder : order.Perm (keys w.channels))
    (horder' : order'.Perm (keys w.channels)) (hlen : 2 ≤ w.channels.length) :
    ((send a m "all" order w).2 ≠ none ↔
      ∃ e ∈ w.channels, e.1 ≠ a.id ∧ e.2.cap ≤ e.2.buf.length) ∧
    (send a m "all" order' w).2 = (send a m "all" order w).2 := by
  have h1 : ¬ w.channels.length ≤ 1 := by omega
  have hsend : ∀ o, send a m "all" o w = sendAll a m o w := by
    intro o
    simp [send, h1]
  rw [hsend order, hsend order']
  have h := sendAll_error a m order w hwf horder
  have h' := sendAll_error a m order' w hwf horder'
  by_cases hfull : ∃ e ∈ w.channels, e.1 ≠ a.id ∧ e.2.cap ≤ e.2.buf.length
  · rw [h.1 hfull, h'.1 hfull]
    exact ⟨⟨fun _ => hfull, fun _ => by simp⟩, rfl⟩
  · rw [h.2 hfull, h'.2 hfull]
    exact ⟨⟨fun hne => absurd rfl hne, fun hex => absurd hex hfull⟩, rfl⟩

/-- Instance of C19: capacity 1, the mailbox of "2" is full; the broadcast of "3" returns
the same error whether "1" or "2" is visited first. -/
theorem broadcast_error_iff_full_witness :
    ((keys [("1", ⟨1, []⟩), ("2", ⟨1, [⟨some "x", "1"⟩]⟩), ("3", ⟨1, []⟩)]).Nodup ∧
      ["1", "2", "3"].Perm
        (keys [("1", ⟨1, []⟩), ("2", ⟨1, [⟨some "x", "1"⟩]⟩), ("3", ⟨1, []⟩)]) ∧
      ["2", "1", "3"].Perm
        (keys [("1", ⟨1, []⟩), ("2", ⟨1, [⟨some "x", "1"⟩]⟩), ("3", ⟨1, []⟩)]) ∧
      2 ≤ ([("1", ⟨1, []⟩), ("2", ⟨1, [⟨some "x", "1"⟩]⟩), ("3", ⟨1, []⟩)] :
        Channels).length) ∧
    (((send ⟨"3"⟩ "hi" "all" ["1", "2", "3"]
          ⟨[("1", ⟨1, []⟩), ("2", ⟨1, [⟨some "x", "1"⟩]⟩), ("3", ⟨1, []⟩)], ⟨3, 0, 1⟩⟩).2 ≠
        none ↔
      ∃ e ∈ ([("1", ⟨1, []⟩), ("2", ⟨1, [⟨some "x", "1"⟩]⟩), ("3", ⟨1, []⟩)] : Channels),
        e.1 ≠ (⟨"3"⟩ : Actor).id ∧ e.2.cap ≤ e.2.buf.length) ∧
    (send ⟨"3"⟩ "hi" "all" ["2", "1", "3"]
        ⟨[("1", ⟨1, []⟩), ("2", ⟨1, [⟨some "x", "1"⟩]⟩), ("3", ⟨1, []⟩)], ⟨3, 0, 1⟩⟩).2 =
      (send ⟨"3"⟩ "hi" "all" ["1", "2", "3"]
        ⟨[("1", ⟨1, []⟩), ("2", ⟨1, [⟨some "x", "1"⟩]⟩), ("3", ⟨1, []⟩)], ⟨3, 0, 1⟩⟩).2) ∧
    (send ⟨"3"⟩ "hi" "all" ["1", "2", "3"]
        ⟨[("1", ⟨1, []⟩), ("2", ⟨1, [⟨some "x", "1"⟩]⟩), ("3", ⟨1, []⟩)], ⟨3, 0, 1⟩⟩).2 =
      some "Channel is full" :=
  ⟨⟨by decide, by decide, by decide, by decide⟩,
    broadcast_error_iff_full ⟨"3"⟩ "hi" ["1", "2", "3"] ["2", "1", "3"]
      ⟨[("1", ⟨1, []⟩), ("2", ⟨1, [⟨some "x", "1"⟩]⟩), ("3", ⟨1, []⟩)], ⟨3, 0, 1⟩⟩
      (by decide) (by decide) (by decide) (by decide),
    by decide⟩

/-! ## The dispatcher -/

/-- One drain with enough fuel, whether the actor's key is in the map or not. -/
theorem receiveMany_of_fuel (fuel : Nat) (a : Actor) (w : World)
    (hfuel : pendingAt w.channels a.id < fuel) :
    ∃ (w1 : World) (msgs : List Message),
      receiveMany fuel a w = some (w1, msgs, none) ∧
      (∀ c, chanAt w.channels a.id = some c → chanAt w1.channels a.id = some ⟨c.cap, []⟩) ∧
      (∀ k, k ≠ a.id → chanAt w1.channels k = chanAt w.channels k) ∧
      keys w1.channels = keys w.channels ∧
      w1.shareData.nMsgsProcessed =
        w.shareData.nMsgsProcessed + pendingAt w.channels a.id ∧
      w1.shareData.nMsgsSent = w.shareData.nMsgsSent ∧
      w1.shareData.nActors = w.shareData.nActors := by
  cases hc : chanAt w.channels a.id with
  | none =>
    obtain ⟨f, rfl⟩ : ∃ f, fuel = f + 1 := ⟨fuel - 1, by omega⟩
    refine ⟨w, [], ?_, ?_, fun _ _ => rfl, rfl, ?_, rfl, rfl⟩
    · simp [receiveMany, receiveLoop, tryRecvFrom, hc]
    · intro c h
      exact Option.noConfusion h
    · simp [pendingAt, hc]
  | some c =>
    obtain ⟨n, buf⟩ := c
    have hlen : buf.length < fuel := by simpa [pendingAt, hc] using hfuel
    refine ⟨⟨putChan w.channels a.id ⟨n, []⟩,
        { w.shareData with nMsgsProcessed := w.shareData.nMsgsProcessed + buf.length }⟩,
      buf, ?_, ?_, fun _ hk => chanAt_putChan_of_ne _ _ _ _ hk,
      keys_putChan_of_some _ _ _ _ hc, ?_, rfl, rfl⟩
    · simpa [receiveMany] using receiveLoop_drains a buf fuel w n [] hc hlen
    · intro c h
      cases h
      exact chanAt_putChan_self _ _ _
    · simp [pendingAt, hc]

theorem sum_map_of_zeroed (l : List String) (f f1 : String → Nat) (x : String)
    (hnd : l.Nodup) (hx : f1 x = 0) (hne : ∀ k, k ≠ x → f1 k = f k) :
    (l.map f).sum = (if x ∈ l then f x else 0) + (l.map f1).sum := by
  induction l with
  | nil => simp
  | cons y ys ih =>
    have hy : y ∉ ys := (List.nodup_cons.mp hnd).1
    have := ih (List.nodup_cons.mp hnd).2
    by_cases hyx : y = x
    · subst hyx
      simp only [hy, if_false, Nat.zero_add] at this
      simp [hx, this]
    · have hxy : x ≠ y := fun h => hyx h.symm
      simp only [List.map_cons, List.sum_cons, List.mem_cons, hxy, false_or, hne y hyx]
      omega

theorem pendingOf_cons (channels channels1 : Channels) (x : String) (ids : List String)
    (hx : pendingAt channels1 x = 0)
    (hne : ∀ k, k ≠ x → pendingAt channels1 k = pendingAt channels k) :
    pendingOf channels (x :: ids) = pendingAt channels x + pendingOf channels1 ids := by
  unfold pendingOf
  have hsum := sum_map_of_zeroed ids.dedup (pendingAt channels) (pendingAt channels1) x
    (List.nodup_dedup ids) hx hne
  by_cases hmem : x ∈ ids
  · rw [List.dedup_cons_of_mem hmem, hsum]
    simp [hmem]
  · rw [List.dedup_cons_of_not_mem hmem, List.map_cons, List.sum_cons, hsum]
    simp [hmem]

/-- The dispatcher with enough fuel for every listed mailbox. -/
theorem start_drains (fuel : Nat) (actors : List Actor) :
    ∀ w : World, (∀ a ∈ actors, pendingAt w.channels a.id < fuel) →
      ∃ w' : World,
        start fuel actors w = some w' ∧
        (∀ k ∈ actors.map (fun a => a.id), ∀ c, chanAt w.channels k = some c →
          chanAt w'.channels k = some ⟨c.cap, []⟩) ∧
        (∀ k, k ∉ actors.map (fun a => a.id) → chanAt w'.channels k = chanAt w.channels k) ∧
        keys w'.channels = keys w.channels ∧
        w'.shareData.nMsgsProcessed =
          w.shareData.nMsgsProcessed + pendingOf w.channels (actors.map (fun a => a.id)) ∧
        w'.shareData.nMsgsSent = w.shareData.nMsgsSent ∧
        w'.shareData.nActors = w.shareData.nActors := by
  induction actors with
  | nil =>
    intro w _
    exact ⟨w, rfl, by simp, fun _ _ => rfl, rfl, by simp [pendingOf], rfl, rfl⟩
  | cons a rest ih =>
    intro w hfuel
    obtain ⟨w1, msgs, hdrain, hown, hother, hkeys1, hproc1, hsent1, hact1⟩ :=
      receiveMany_of_fuel fuel a w (hfuel a (by simp))
    have hp0 : pendingAt w1.channels a.id = 0 := by
      cases hc : chanAt w.channels a.id with
      | none =>
        have : chanAt w1.channels a.id = none := by
          rw [chanAt_eq_none_iff, hkeys1, ← chanAt_eq_none_iff]
          exact hc
        simp [pendingAt, this]
      | some c => simp [pendingAt, hown c hc]
    have hpne : ∀ k, k ≠ a.id → pendingAt w1.channels k = pendingAt w.channels k := by
      intro k hk
      simp [pendingAt, hother k hk]
    have hfuel1 : ∀ b ∈ rest, pendingAt w1.channels b.id < fuel := by
      intro b hb
      by_cases hba : b.id = a.id
      · rw [hba, hp0]
        have := hfuel a (by simp)
        omega
      · rw [hpne _ hba]
        exact hfuel b (by simp [hb])
    obtain ⟨w', hstart, hlisted, hunlisted, hkeys, hproc, hsent, hact⟩ := ih w1 hfuel1
    refine ⟨w', ?_, ?_, ?_, hkeys.trans hkeys1, ?_, hsent.trans hsent1, hact.trans hact1⟩
    · simp [start, hdrain, hstart]
    · intro k hk c hc
      by_cases hrest : k ∈ rest.map (fun a => a.id)
      · by_cases hka : k = a.id
        · subst hka
          exact hlisted _ hrest ⟨c.cap, []⟩ (hown c hc)
        · exact hlisted k hrest c (by rw [hother k hka]; exact hc)
      · have hka : k = a.id := by
          simp only [List.map_cons, List.mem_cons] at hk
          rcases hk with h | h
          · exact h
          · exact absurd h hrest
        subst hka
        rw [hunlisted _ hrest]
        exact hown c hc
    · intro k hk
      simp only [List.map_cons, List.mem_cons, not_or] at hk
      rw [hunlisted k hk.2, hother k hk.1]
    · rw [hproc, hproc1, List.map_cons, pendingOf_cons w.channels w1.channels a.id _ hp0 hpne]
      push_cast
      ring

theorem totalPending_eq_zero (channels : Channels) (h : ∀ e ∈ channels, e.2.buf = []) :
    totalPending channels = 0 := by
  induction channels with
  | nil => rfl
  | cons e rest ih =>
    have h1 := h e (by simp)
    have h2 := ih (fun e' he' => h e' (by simp [he']))
    simp only [totalPending] at h2
    simp [totalPending, h1, h2]

/-- C17: take a list of registered actors and enough fuel for each of their mailboxes.
`start(actors)` returns, and afterwards: the mailbox of every listed actor is empty,
with the capacity it had; `nMsgsProcessed` has grown by exactly the number of messages
that were pending in the mailboxes of the listed actors, each distinct mailbox counted
once; `nMsgsSent`, `nActors`, the keys and the mailboxes of unlisted actors are
unchanged; and if the map has no duplicate key, every key of the map is the id of a
listed actor and `nMsgsSent = nMsgsProcessed + (sum of mailbox lengths)` held before, then
`nMsgsProcessed = nMsgsSent` afterwards.  The actors are drained one after the other in
list order: that is the recursion of `start`. -/
theorem start_drains_listed (fuel : Nat) (actors : List Actor) (w : World)
    (hreg : ∀ a ∈ actors, a.id ∈ keys w.channels)
    (hfuel : ∀ a ∈ actors, pendingAt w.channels a.id < fuel) :
    ∃ w' : World,
      start fuel actors w = some w' ∧
      (∀ a ∈ actors, ∃ c c', chanAt w.channels a.id = some c ∧
        chanAt w'.channels a.id = some c' ∧ c'.buf = [] ∧ c'.cap = c.cap) ∧
      w'.shareData.nMsgsProcessed =
        w.shareData.nMsgsProcessed + pendingOf w.channels (actors.map (fun a => a.id)) ∧
      w'.shareData.nMsgsSent = w.shareData.nMsgsSent ∧
      w'.shareData.nActors = w.shareData.nActors ∧
      keys w'.channels = keys w.channels ∧
      (∀ k, k ∉ actors.map (fun a => a.id) → chanAt w'.channels k = chanAt w.channels k) ∧
      ((keys w.channels).Nodup →
        (∀ k ∈ keys w.channels, k ∈ actors.map (fun a => a.id)) →
        w.shareData.nMsgsSent = w.shareData.nMsgsProcessed + totalPending w.channels →
        w'.shareData.nMsgsProcessed = w'.shareData.nMsgsSent) := by
  obtain ⟨w', hstart, hlisted, hunlisted, hkeys, hproc, hsent, hact⟩ :=
    start_drains fuel actors w hfuel
  refine ⟨w', hstart, ?_, hproc, hsent, hact, hkeys, hunlisted, ?_⟩
  · intro a ha
    obtain ⟨c, hc⟩ := exists_chanAt_of_mem_keys _ _ (hreg a ha)
    exact ⟨c, ⟨c.cap, []⟩, hc, hlisted a.id (List.mem_map.mpr ⟨a, ha, rfl⟩) c hc, rfl, rfl⟩
  · intro hwf hall hq
    have hq' := steps_quiescent (fun _ => True) w w'
      (start_steps (fun _ => True) fuel actors w w' hstart) hq
    have hzero : totalPending w'.channels = 0 := by
      apply totalPending_eq_zero
      intro e he
      have hk : e.1 ∈ keys w.channels := by
        rw [← hkeys]
        exact List.mem_map.mpr ⟨e, he, rfl⟩
      obtain ⟨c, hc⟩ := exists_chanAt_of_mem_keys _ _ hk
      have h1 := hlisted e.1 (hall e.1 hk) c hc
      have h2 := chanAt_of_mem w'.channels e.1 e.2 (by rw [hkeys]; exact hwf) he
      rw [h2] at h1
      have h3 : e.2 = ⟨c.cap, []⟩ := Option.some.inj h1
      rw [h3]
    rw [hq', hzero]
    simp

/-- Instance of C17: actors "1", "2", "3" hold one, two and one message; `start` is
called on the list "2", "1", "2": three messages are processed, the mailbox of "3" keeps
its message.  Called on all three actors it leaves `nMsgsProcessed = nMsgsSent = 4`. -/
theorem start_drains_listed_witness :
    ((∀ a ∈ ([⟨"2"⟩, ⟨"1"⟩, ⟨"2"⟩] : List Actor),
        a.id ∈ keys
          [("1", ⟨3, [⟨some "a", "2"⟩]⟩), ("2", ⟨3, [⟨some "b", "1"⟩, ⟨some "c", "3"⟩]⟩),
          ("3", ⟨3, [⟨some "d", "1"⟩]⟩)]) ∧
      (∀ a ∈ ([⟨"2"⟩, ⟨"1"⟩, ⟨"2"⟩] : List Actor),
        pendingAt
          [("1", ⟨3, [⟨some "a", "2"⟩]⟩), ("2", ⟨3, [⟨some "b", "1"⟩, ⟨some "c", "3"⟩]⟩),
          ("3", ⟨3, [⟨some "d", "1"⟩]⟩)]
          a.id < 3)) ∧
    (∃ w' : World,
      start 3 [⟨"2"⟩, ⟨"1"⟩, ⟨"2"⟩]
          ⟨[("1", ⟨3, [⟨some "a", "2"⟩]⟩), ("2", ⟨3, [⟨some "b", "1"⟩, ⟨some "c", "3"⟩]⟩),
          ("3", ⟨3, [⟨some "d", "1"⟩]⟩)],
            ⟨3, 0, 4⟩⟩ = some w' ∧
      (∀ a ∈ ([⟨"2"⟩, ⟨"1"⟩, ⟨"2"⟩] : List Actor), ∃ c c',
        chanAt
          [("1", ⟨3, [⟨some "a", "2"⟩]⟩), ("2", ⟨3, [⟨some "b", "1"⟩, ⟨some "c", "3"⟩]⟩),
          ("3", ⟨3, [⟨some "d", "1"⟩]⟩)]
          a.id = some c ∧
        chanAt w'.channels a.id = some c' ∧ c'.buf = [] ∧ c'.cap = c.cap) ∧
      w'.shareData.nMsgsProcessed =
        0 + pendingOf
          [("1", ⟨3, [⟨some "a", "2"⟩]⟩), ("2", ⟨3, [⟨some "b", "1"⟩, ⟨some "c", "3"⟩]⟩),
          ("3", ⟨3, [⟨some "d", "1"⟩]⟩)]
          (([⟨"2"⟩, ⟨"1"⟩, ⟨"2"⟩] : List Actor).map (fun a => a.id)) ∧
      w'.shareData.nMsgsSent = 4 ∧
      w'.shareData.nActors = 3 ∧
      keys w'.channels =
        keys
          [("1", ⟨3, [⟨some "a", "2"⟩]⟩), ("2", ⟨3, [⟨some "b", "1"⟩, ⟨some "c", "3"⟩]⟩),
          ("3", ⟨3, [⟨some "d", "1"⟩]⟩)] ∧
      (∀ k, k ∉ ([⟨"2"⟩, ⟨"1"⟩, ⟨"2"⟩] : List Actor).map (fun a => a.id) →
        chanAt w'.channels k =
          chanAt
          [("1", ⟨3, [⟨some "a", "2"⟩]⟩), ("2", ⟨3, [⟨some "b", "1"⟩, ⟨some "c", "3"⟩]⟩),
          ("3", ⟨3, [⟨some "d", "1"⟩]⟩)]
          k) ∧
      ((keys
          [("1", ⟨3, [⟨some "a", "2"⟩]⟩), ("2", ⟨3, [⟨some "b", "1"⟩, ⟨some "c", "3"⟩]⟩),
          ("3", ⟨3, [⟨some "d", "1"⟩]⟩)]).Nodup →
        (∀ k ∈ keys
          [("1", ⟨3, [⟨some "a", "2"⟩]⟩), ("2", ⟨3, [⟨some "b", "1"⟩, ⟨some "c", "3"⟩]⟩),
          ("3", ⟨3, [⟨some "d", "1"⟩]⟩)],
          k ∈ ([⟨"2"⟩, ⟨"1"⟩, ⟨"2"⟩] : List Actor).map (fun a => a.id)) →
        (4 : Int) =
          0 + totalPending
          [("1", ⟨3, [⟨some "a", "2"⟩]⟩), ("2", ⟨3, [⟨some "b", "1"⟩, ⟨some "c", "3"⟩]⟩),
          ("3", ⟨3, [⟨some "d", "1"⟩]⟩)] →
        w'.shareData.nMsgsProcessed = w'.shareData.nMsgsSent)) ∧
    start 3 [⟨"2"⟩, ⟨"1"⟩, ⟨"2"⟩]
        ⟨[("1", ⟨3, [⟨some "a", "2"⟩]⟩), ("2", ⟨3, [⟨some "b", "1"⟩, ⟨some "c", "3"⟩]⟩),
          ("3", ⟨3, [⟨some "d", "1"⟩]⟩)],
          ⟨3, 0, 4⟩⟩ =
      some ⟨[("1", ⟨3, []⟩), ("2", ⟨3, []⟩), ("3", ⟨3, [⟨some "d", "1"⟩]⟩)], ⟨3, 3, 4⟩⟩ ∧
    start 3 [⟨"1"⟩, ⟨"2"⟩, ⟨"3"⟩]
        ⟨[("1", ⟨3, [⟨some "a", "2"⟩]⟩), ("2", ⟨3, [⟨some "b", "1"⟩, ⟨some "c", "3"⟩]⟩),
          ("3", ⟨3, [⟨some "d", "1"⟩]⟩)],
          ⟨3, 0, 4⟩⟩ =
      some ⟨[("1", ⟨3, []⟩), ("2", ⟨3, []⟩), ("3", ⟨3, []⟩)], ⟨3, 4, 4⟩⟩ :=
  ⟨⟨by decide, by decide⟩,
    start_drains_listed 3 [⟨"2"⟩, ⟨"1"⟩, ⟨"2"⟩]
      ⟨[("1", ⟨3, [⟨some "a", "2"⟩]⟩), ("2", ⟨3, [⟨some "b", "1"⟩, ⟨some "c", "3"⟩]⟩),
          ("3", ⟨3, [⟨some "d", "1"⟩]⟩)],
        ⟨3, 0, 4⟩⟩
      (by decide) (by decide),
    by decide, by decide⟩

/-! ## The counters in 64 bits -/

theorem wrap64_succ (x : Int) : wrap64 (wrap64 x + 1) = wrap64 (x + 1) := by
  unfold wrap64
  omega

theorem wrap64_of_range (x : Int) (hlow : -2 ^ 63 ≤ x) (hhigh : x < 2 ^ 63) :
    wrap64 x = x := by
  unfold wrap64
  omega

theorem incrementMsgsSent64_to64 (s : ShareState) :
    s.to64.incrementMsgsSent64 = s.incrementMsgsSent.to64 := by
  simp [ShareState.to64, ShareState.incrementMsgsSent64, ShareState.incrementMsgsSent, incr64,
    wrap64_succ]

theorem incrementMsgsProcessed64_to64 (s : ShareState) :
    s.to64.incrementMsgsProcessed64 = s.incrementMsgsProcessed.to64 := by
  simp [ShareState.to64, ShareState.incrementMsgsProcessed64,
    ShareState.incrementMsgsProcessed, incr64, wrap64_succ]

/-- `new` with the 64-bit counters, started on the reduced counters, does what `new`
does, reduced. -/
theorem new64_to64 (chanLimit : Nat) (id : String) (w : World) (channelCap : Int) :
    new64 chanLimit id w.to64.channels channelCap w.to64.shareData =
      match new chanLimit id w.channels channelCap w.shareData with
      | .returned r w' => .returned r w'.to64
      | .panicked why => .panicked why := by
  unfold new64 new
  by_cases hall : id = "all"
  · simp [hall, World.to64]
  · by_cases hex : (chanAt w.channels id).isSome
    · simp [hall, hex, World.to64]
    · by_cases hrefused : channelCap < 0 ∨ chanSizeBound ≤ channelCap ∨
          (chanLimit : Int) < channelCap
      · simp [hall, hex, hrefused, World.to64]
      · simp [hall, hex, hrefused, World.to64, ShareState.to64, incr64, wrap64_succ]

theorem sendAll64_to64 (a : Actor) (m : String) (order : List String) :
    ∀ w : World, sendAll64 a m order w.to64 =
      ((sendAll a m order w).1.to64, (sendAll a m order w).2) := by
  induction order with
  | nil => intro w; rfl
  | cons k ks ih =>
    intro w
    by_cases hself : k = a.id
    · simp only [sendAll64, sendAll, hself, ne_eq, not_true_eq_false, if_false]
      exact ih w
    · cases hsend : trySendTo w.channels k ⟨some m, a.id⟩ with
      | none =>
        have h64 : trySendTo w.to64.channels k ⟨some m, a.id⟩ = none := hsend
        simp only [sendAll64, sendAll, hself, ne_eq, not_false_eq_true, if_true, hsend, h64]
      | some channels' =>
        have h64 : trySendTo w.to64.channels k ⟨some m, a.id⟩ = some channels' := hsend
        simp only [sendAll64, sendAll, hself, ne_eq, not_false_eq_true, if_true, hsend, h64]
        have hw : (⟨channels', w.to64.shareData.incrementMsgsSent64⟩ : World) =
            (⟨channels', w.shareData.incrementMsgsSent⟩ : World).to64 := by
          simp [World.to64, incrementMsgsSent64_to64]
        rw [hw]
        exact ih _

theorem send64_to64 (a : Actor) (m target : String) (order : List String) (w : World) :
    send64 a m target order w.to64 =
      ((send a m target order w).1.to64, (send a m target order w).2) := by
  unfold send64 send
  have hch : w.to64.channels = w.channels := rfl
  rw [hch]
  by_cases hlen : w.channels.length ≤ 1
  · simp [hlen]
  · by_cases hto : target = "all"
    · simp only [hlen, hto, if_false, if_true]
      exact sendAll64_to64 a m order w
    · simp only [hlen, hto, if_false]
      cases hsend : trySendTo w.channels target ⟨some m, a.id⟩ with
      | none => rfl
      | some channels' =>
        simp [World.to64, incrementMsgsSent64_to64]

theorem receiveOnce64_to64 (a : Actor) (w : World) :
    receiveOnce64 a w.to64 =
      ((receiveOnce a w).1.to64, (receiveOnce a w).2.1, (receiveOnce a w).2.2) := by
  unfold receiveOnce64 receiveOnce
  have hch : w.to64.channels = w.channels := rfl
  rw [hch]
  cases hrecv : tryRecvFrom w.channels a.id with
  | none => rfl
  | some p =>
    obtain ⟨v, channels'⟩ := p
    simp [World.to64, incrementMsgsProcessed64_to64]

theorem receiveLoop64_to64 (a : Actor) (fuel : Nat) :
    ∀ (w : World) (messages : List Message),
      receiveLoop64 a fuel w.to64 messages =
        (receiveLoop a fuel w messages).map (fun r => (r.1.to64, r.2.1, r.2.2)) := by
  induction fuel with
  | zero => intro w messages; rfl
  | succ fuel ih =>
    intro w messages
    unfold receiveLoop64 receiveLoop
    have hch : w.to64.channels = w.channels := rfl
    rw [hch]
    cases hrecv : tryRecvFrom w.channels a.id with
    | none => rfl
    | some p =>
      obtain ⟨v, channels'⟩ := p
      simp only
      have hw : (⟨channels', w.to64.shareData.incrementMsgsProcessed64⟩ : World) =
          (⟨channels', w.shareData.incrementMsgsProcessed⟩ : World).to64 := by
        simp [World.to64, incrementMsgsProcessed64_to64]
      rw [hw]
      exact ih _ _

theorem start64_to64 (fuel : Nat) (actors : List Actor) :
    ∀ w : World, start64 fuel actors w.to64 = (start fuel actors w).map World.to64 := by
  induction actors with
  | nil => intro w; rfl
  | cons a rest ih =>
    intro w
    unfold start64 start receiveMany64 receiveMany
    rw [receiveLoop64_to64]
    cases hdrain : receiveLoop a fuel w [] with
    | none => rfl
    | some r =>
      obtain ⟨w1, msgs, e⟩ := r
      simp only [Option.map_some']
      exact ih w1

/-- Every call with the 64-bit counters, started on the reduced counters, leaves the
world that the call with unbounded counters leaves, reduced. -/
theorem run64_wrap64 (chanLimit : Nat) (op : Op) (w : World) :
    op.run64 chanLimit w.to64 = (op.run chanLimit w).map World.to64 := by
  cases op with
  | new id channelCap =>
    simp only [Op.run64, Op.run]
    rw [new64_to64]
    cases new chanLimit id w.channels channelCap w.shareData <;> rfl
  | send a m target order =>
    simp only [Op.run64, Op.run, send64_to64, Option.map_some']
  | receiveOnce a =>
    simp only [Op.run64, Op.run, receiveOnce64_to64, Option.map_some']
  | receiveMany fuel a =>
    simp only [Op.run64, Op.run, receiveMany64, receiveMany]
    rw [receiveLoop64_to64]
    cases hdrain : receiveLoop a fuel w [] with
    | none => rfl
    | some r =>
      obtain ⟨w1, msgs, e⟩ := r
      rfl
  | start fuel actors =>
    simp only [Op.run64, Op.run]
    exact start64_to64 fuel actors w

theorem runOps64_wrap64 (chanLimit : Nat) (ops : List Op) :
    ∀ w : World, runOps64 chanLimit ops w.to64 = (runOps chanLimit ops w).map World.to64 := by
  induction ops with
  | nil => intro w; rfl
  | cons op rest ih =>
    intro w
    unfold runOps64 runOps
    rw [run64_wrap64]
    cases hrun : op.run chanLimit w with
    | none => rfl
    | some w1 =>
      simp only [Option.map_some']
      exact ih w1

theorem to64_of_range (w : World)
    (hlow : -2 ^ 63 ≤ w.shareData.nActors ∧ -2 ^ 63 ≤ w.shareData.nMsgsSent ∧
      -2 ^ 63 ≤ w.shareData.nMsgsProcessed)
    (hhigh : w.shareData.nActors < 2 ^ 63 ∧ w.shareData.nMsgsSent < 2 ^ 63 ∧
      w.shareData.nMsgsProcessed < 2 ^ 63) :
    w.to64 = w := by
  obtain ⟨channels, ⟨nActors, nMsgsProcessed, nMsgsSent⟩⟩ := w
  simp only [World.to64, ShareState.to64, World.mk.injEq, ShareState.mk.injEq, true_and]
  exact ⟨wrap64_of_range _ hlow.1 hhigh.1, wrap64_of_range _ hlow.2.2 hhigh.2.2,
    wrap64_of_range _ hlow.2.1 hhigh.2.1⟩

/-- C15, as stated, fails at the largest `int`: with `nMsgsSent = 2^63 - 1`, a send that
succeeds increments the counter to `-2^63`, which is less than its value before the
call. -/
theorem counter_wraps_at_max_int :
    Op.run64 8 (.send ⟨"1"⟩ "x" "2" ["1", "2"])
        ⟨[("1", ⟨1, []⟩), ("2", ⟨1, []⟩)], ⟨2, 0, 9223372036854775807⟩⟩ =
      some ⟨[("1", ⟨1, []⟩), ("2", ⟨1, [⟨some "x", "1"⟩]⟩)], ⟨2, 0, -9223372036854775808⟩⟩ ∧
    send64 ⟨"1"⟩ "x" "2" ["1", "2"]
        ⟨[("1", ⟨1, []⟩), ("2", ⟨1, []⟩)], ⟨2, 0, 9223372036854775807⟩⟩ =
      (⟨[("1", ⟨1, []⟩), ("2", ⟨1, [⟨some "x", "1"⟩]⟩)], ⟨2, 0, -9223372036854775808⟩⟩,
        none) ∧
    ¬ ((9223372036854775807 : Int) ≤ -9223372036854775808) := by
  refine ⟨by decide, by decide, by decide⟩

/-- C15, amended: take a call (`new`, `send`, `receiveOnce`, `receiveMany`, `start`) in a
world whose counters are values of an `int`, and suppose that each counter's value before
the call plus the number of increments that the call performs on it does not exceed
`2^63 - 1` (`hsum` and `hfit`: `Op.run` computes these sums, as unbounded integers).
Then the call with the 64-bit counters, whether it returns an error or not, leaves the
world `wi` that `Op.run` computes, and each of `nActors`, `nMsgsSent` and
`nMsgsProcessed` is at least as large as before the call.  Under the same proviso
(`hsum0` and `hfit0`), in a state reached from an empty map with zeroed counters the three
counters are not negative. -/
theorem counters_never_decrease (chanLimit : Nat) (op : Op) (w wi w' : World)
    (ops : List Op) (wri wr : World)
    (hlow : -2 ^ 63 ≤ w.shareData.nActors ∧ -2 ^ 63 ≤ w.shareData.nMsgsSent ∧
      -2 ^ 63 ≤ w.shareData.nMsgsProcessed)
    (hsum : op.run chanLimit w = some wi)
    (hfit : wi.shareData.nActors < 2 ^ 63 ∧ wi.shareData.nMsgsSent < 2 ^ 63 ∧
      wi.shareData.nMsgsProcessed < 2 ^ 63)
    (hrun : op.run64 chanLimit w = some w')
    (hsum0 : runOps chanLimit ops World.init = some wri)
    (hfit0 : wri.shareData.nActors < 2 ^ 63 ∧ wri.shareData.nMsgsSent < 2 ^ 63 ∧
      wri.shareData.nMsgsProcessed < 2 ^ 63)
    (hreach : runOps64 chanLimit ops World.init = some wr) :
    (w' = wi ∧
      w.shareData.nActors ≤ w'.shareData.nActors ∧
      w.shareData.nMsgsSent ≤ w'.shareData.nMsgsSent ∧
      w.shareData.nMsgsProcessed ≤ w'.shareData.nMsgsProcessed) ∧
    (wr = wri ∧
      0 ≤ wr.shareData.nActors ∧ 0 ≤ wr.shareData.nMsgsSent ∧
      0 ≤ wr.shareData.nMsgsProcessed) := by
  have hle := steps_counters_le _ _ _
    (run_steps (fun _ => True) chanLimit op w wi (fun _ _ _ => trivial) hsum)
  have hle0 := steps_counters_le _ _ _
    (runOps_steps (fun _ => True) chanLimit ops World.init wri (fun _ _ _ => trivial) hsum0)
  simp only [World.init] at hle0
  constructor
  · have hw : w.to64 = w := to64_of_range w hlow
      ⟨lt_of_le_of_lt hle.1 hfit.1, lt_of_le_of_lt hle.2.1 hfit.2.1,
        lt_of_le_of_lt hle.2.2 hfit.2.2⟩
    have hwi : wi.to64 = wi := to64_of_range wi
      ⟨le_trans hlow.1 hle.1, le_trans hlow.2.1 hle.2.1, le_trans hlow.2.2 hle.2.2⟩ hfit
    have h64 := run64_wrap64 chanLimit op w
    rw [hw, hsum, hrun, Option.map_some', hwi] at h64
    have heq : w' = wi := Option.some.inj h64
    subst heq
    exact ⟨rfl, hle⟩
  · have h0 : World.init.to64 = World.init :=
      to64_of_range World.init (by simp [World.init]) (by simp [World.init])
    have hwri : wri.to64 = wri := to64_of_range wri
      ⟨le_trans (by norm_num) hle0.1, le_trans (by norm_num) hle0.2.1,
        le_trans (by norm_num) hle0.2.2⟩ hfit0
    have h64 := runOps64_wrap64 chanLimit ops World.init
    rw [h0, hsum0, hreach, Option.map_some', hwri] at h64
    have heq : wr = wri := Option.some.inj h64
    subst heq
    exact ⟨rfl, hle0⟩

/-- Instance of C15, amended: a send that succeeds and takes `nMsgsSent` from 0 to 1, and
the run of calls used for C14. -/
theorem counters_never_decrease_witness :
    ((-(2 : Int) ^ 63 ≤ 2 ∧ -(2 : Int) ^ 63 ≤ 0 ∧ -(2 : Int) ^ 63 ≤ 0) ∧
      Op.run 8 (.send ⟨"1"⟩ "x" "2" ["1", "2"])
          ⟨[("1", ⟨1, []⟩), ("2", ⟨1, []⟩)], ⟨2, 0, 0⟩⟩ =
        some ⟨[("1", ⟨1, []⟩), ("2", ⟨1, [⟨some "x", "1"⟩]⟩)], ⟨2, 0, 1⟩⟩ ∧
      ((2 : Int) < 2 ^ 63 ∧ (1 : Int) < 2 ^ 63 ∧ (0 : Int) < 2 ^ 63) ∧
      Op.run64 8 (.send ⟨"1"⟩ "x" "2" ["1", "2"])
          ⟨[("1", ⟨1, []⟩), ("2", ⟨1, []⟩)], ⟨2, 0, 0⟩⟩ =
        some ⟨[("1", ⟨1, []⟩), ("2", ⟨1, [⟨some "x", "1"⟩]⟩)], ⟨2, 0, 1⟩⟩ ∧
      runOps 8
        [.new "1" 3, .new "2" 3, .new "3" 3, .send ⟨"1"⟩ "x" "2" ["1", "2", "3"],
        .send ⟨"3"⟩ "hi" "all" ["2", "3", "1"], .receiveOnce ⟨"2"⟩, .new "all" 3,
        .send ⟨"1"⟩ "z" "9" ["3", "2", "1"]]
        World.init =
      some ⟨[("1", ⟨3, [⟨some "hi", "3"⟩]⟩), ("2", ⟨3, [⟨some "hi", "3"⟩]⟩), ("3", ⟨3, []⟩)],
        ⟨3, 1, 3⟩⟩ ∧
      ((3 : Int) < 2 ^ 63 ∧ (3 : Int) < 2 ^ 63 ∧ (1 : Int) < 2 ^ 63) ∧
      runOps64 8
        [.new "1" 3, .new "2" 3, .new "3" 3, .send ⟨"1"⟩ "x" "2" ["1", "2", "3"],
        .send ⟨"3"⟩ "hi" "all" ["2", "3", "1"], .receiveOnce ⟨"2"⟩, .new "all" 3,
        .send ⟨"1"⟩ "z" "9" ["3", "2", "1"]]
        World.init =
      some ⟨[("1", ⟨3, [⟨some "hi", "3"⟩]⟩), ("2", ⟨3, [⟨some "hi", "3"⟩]⟩), ("3", ⟨3, []⟩)],
        ⟨3, 1, 3⟩⟩) ∧
    ((2 : Int) ≤ 2 ∧ (0 : Int) ≤ 1 ∧ (0 : Int) ≤ 0) ∧
    ((0 : Int) ≤ 3 ∧ (0 : Int) ≤ 3 ∧ (0 : Int) ≤ 1) :=
  have h := counters_never_decrease 8 (.send ⟨"1"⟩ "x" "2" ["1", "2"])
    ⟨[("1", ⟨1, []⟩), ("2", ⟨1, []⟩)], ⟨2, 0, 0⟩⟩
    ⟨[("1", ⟨1, []⟩), ("2", ⟨1, [⟨some "x", "1"⟩]⟩)], ⟨2, 0, 1⟩⟩
    ⟨[("1", ⟨1, []⟩), ("2", ⟨1, [⟨some "x", "1"⟩]⟩)], ⟨2, 0, 1⟩⟩
    [.new "1" 3, .new "2" 3, .new "3" 3, .send ⟨"1"⟩ "x" "2" ["1", "2", "3"],
        .send ⟨"3"⟩ "hi" "all" ["2", "3", "1"], .receiveOnce ⟨"2"⟩, .new "all" 3,
        .send ⟨"1"⟩ "z" "9" ["3", "2", "1"]]
    ⟨[("1", ⟨3, [⟨some "hi", "3"⟩]⟩), ("2", ⟨3, [⟨some "hi", "3"⟩]⟩), ("3", ⟨3, []⟩)],
        ⟨3, 1, 3⟩⟩
    ⟨[("1", ⟨3, [⟨some "hi", "3"⟩]⟩), ("2", ⟨3, [⟨some "hi", "3"⟩]⟩), ("3", ⟨3, []⟩)],
        ⟨3, 1, 3⟩⟩
    (by decide) (by decide) (by decide) (by decide) (by decide) (by decide) (by decide)
  ⟨⟨by decide, by decide, by decide, by decide, by decide, by decide, by decide⟩,
    h.1.2, h.2.2⟩

end Actors
